import Mathlib

/-!
# Verification of `pdf-annotations-transfer` (src/main.py)

A shallow embedding of the annotation-transfer tool: the text
normalizer, the sliding-window fuzzy matcher
(`find_best_fuzzy_match_in_pages`), the four-tier occurrence locator
(`find_text_occurrence`), and the two-pass transfer session
(`transfer_annotations`), together with theorems settling the frozen
claims about them.

The document model (pages, word extraction, exact substring search) is
the external PyMuPDF collaborator: a `Page` carries its extracted word
tokens and its `search_for` oracle as data, exactly the interface the
core consumes.  Python strings are `List Char`, Python floats are `ℚ`,
Python ints are `Int` (counters that can only grow are `Nat`), and the
`Levenshtein.distance` library call is Mathlib's `levenshtein` with the
unit-cost table.
-/

namespace PdfTransfer

/-! ## Text utilities: `" ".join(text.split())` -/

/-- One step of Python's `str.split()`: accumulate the current word
(reversed in `acc`), emitting it at each whitespace run boundary. -/
def splitWsAux : List Char → List Char → List (List Char)
  | [], acc => if acc = [] then [] else [acc.reverse]
  | c :: cs, acc =>
    if c.isWhitespace then
      if acc = [] then splitWsAux cs [] else acc.reverse :: splitWsAux cs []
    else
      splitWsAux cs (c :: acc)

/-- Python `text.split()`: split on runs of whitespace, no empty words. -/
def splitWs (t : List Char) : List (List Char) := splitWsAux t []

/-- Python `" ".join(ws)`. -/
def joinWords (ws : List (List Char)) : List Char := List.intercalate [' '] ws

/-- Python `" ".join(text.split())` — whitespace normalization.  (A
preceding `.strip()` is absorbed: `split()` already discards leading and
trailing whitespace.) -/
def normalizeWs (t : List Char) : List Char := joinWords (splitWs t)

/-- Python `int(q)` on a float/rational: truncation toward zero. -/
def pyTrunc (q : ℚ) : Int := if 0 ≤ q then ⌊q⌋ else ⌈q⌉

/-! ## Document model (the PyMuPDF collaborator interface) -/

/-- A word's bounding box `w[:4]`, coordinates as rationals. -/
structure Rect where
  x0 : ℚ
  y0 : ℚ
  x1 : ℚ
  y1 : ℚ
deriving DecidableEq

/-- A quadrilateral (four corner points), as produced by
`fitz.Rect(...).quad` and by `page.search_for(..., quads=True)`. -/
structure Quad where
  ul : ℚ × ℚ
  ur : ℚ × ℚ
  ll : ℚ × ℚ
  lr : ℚ × ℚ
deriving DecidableEq

/-- `fitz.Rect(w[:4]).quad`: the rectangle's four corners. -/
def Rect.quad (r : Rect) : Quad :=
  ⟨(r.x0, r.y0), (r.x1, r.y0), (r.x0, r.y1), (r.x1, r.y1)⟩

/-- One word token from `page.get_text("words")`: bounding box `w[:4]`
and text `w[4]`. -/
structure Word where
  rect : Rect
  text : List Char

/-- A target-document page: its extracted word tokens and its exact
substring-search oracle `page.search_for(s, quads=True)` (a list of
quadrilaterals, empty when the phrase is absent from the page). -/
structure Page where
  words : List Word
  search_for : List Char → List Quad

instance : Inhabited Page := ⟨⟨[], fun _ => []⟩⟩

/-- The target document: an ordered sequence of pages. -/
structure Doc where
  pages : List Page

/-- `doc.load_page(i)` (all call sites pass in-range indices). -/
def Doc.load_page (doc : Doc) (i : Nat) : Page := doc.pages.getD i default

/-- `doc.page_count`. -/
def Doc.page_count (doc : Doc) : Nat := doc.pages.length

/-! ## `find_best_fuzzy_match_in_pages` (src/main.py lines 20–70) -/

/-- A scored sliding window: (page index, one quad per window word,
Levenshtein distance of the joined window text to the target). -/
abbrev Cand := Nat × List Quad × Nat

/-- The distance component of a scored window. -/
def Cand.dist (c : Cand) : Nat := c.2.2

/-- All sliding windows of `n_words` consecutive words on one page,
each with its quads and its character-level Levenshtein distance to
`text_to_find`; a page with fewer than `n_words` words is skipped
(`if len(page_words) < n_words: continue`). -/
def windowCandidates (text_to_find : List Char) (n_words : Nat) (page_idx : Nat)
    (page_words : List Word) : List Cand :=
  if page_words.length < n_words then []
  else
    (List.range (page_words.length - n_words + 1)).map fun i =>
      let window_words_info := (page_words.drop i).take n_words
      let candidate_text := joinWords (window_words_info.map (fun w => w.text))
      (page_idx, window_words_info.map (fun w => w.rect.quad),
        levenshtein Levenshtein.defaultCost text_to_find candidate_text)

/-- The body of the candidate loop: replace the running best only on a
strictly smaller distance (`if distance < best_match['distance']`), so
an equal-distance later window never replaces the incumbent.  The
initial `best_match` has distance `float('inf')`, modelled by `none`. -/
def updateBest (best : Option Cand) (c : Cand) : Option Cand :=
  match best with
  | none => some c
  | some b => if c.dist < b.dist then some c else some b

/-- The full candidate stream, in loop order: pages in caller-supplied
order, window positions left to right on each page. -/
def fuzzyCandidates (doc : Doc) (text_to_find : List Char) (n_words : Nat)
    (page_indices : List Nat) : List Cand :=
  page_indices.flatMap fun idx =>
    windowCandidates text_to_find n_words idx (doc.load_page idx).words

/-- `allowed_distance = int(len(text_to_find) * threshold_ratio) + base_allowance`.
Computed on the ratio's numerator and denominator with truncating
integer division so that concrete runs evaluate;
`allowed_distance_eq_pyTrunc` below proves this is exactly the
truncation of `len * ratio`. -/
def allowed_distance (text_to_find : List Char) (threshold_ratio : ℚ)
    (base_allowance : Int) : Int :=
  Int.tdiv ((text_to_find.length : Int) * threshold_ratio.num) (threshold_ratio.den : Int)
    + base_allowance

/-- src/main.py lines 20–70: scan every window of `n_words` consecutive
words over the candidate pages, keep the single best (first-found on
ties), and return its page and quads only when its distance is within
the allowed budget. -/
def find_best_fuzzy_match_in_pages (doc : Doc) (text_to_find : List Char)
    (threshold_ratio : ℚ) (base_allowance : Int) (page_indices : List Nat) :
    Option (Nat × List Quad) :=
  let n_words := (splitWs text_to_find).length
  if n_words = 0 then none
  else
    match (fuzzyCandidates doc text_to_find n_words page_indices).foldl updateBest none with
    | none => none
    | some (p, qs, d) =>
        if (d : Int) ≤ allowed_distance text_to_find threshold_ratio base_allowance then
          some (p, qs)
        else none

/-! ## `find_text_occurrence` (src/main.py lines 72–128) -/

/-- The fixed local search window size (`LOCAL_PAGE_WINDOW = 5`). -/
def LOCAL_PAGE_WINDOW : Nat := 5

/-- The match-kind tag returned as a string by the source
(`"exact"` / `"fuzzy"` / `"none"`). -/
inductive MatchType
  | exact
  | fuzzy
  | none
deriving DecidableEq

/-- The first page of `idxs` on which `page.search_for` finds the
phrase, with its quads — the shape of both exact-search loops. -/
def exactSearchFirst (doc : Doc) (s : List Char) (idxs : List Nat) :
    Option (Nat × List Quad) :=
  idxs.findSome? fun page_idx =>
    let quads := (doc.load_page page_idx).search_for s
    if quads = [] then Option.none else some (page_idx, quads)

/-- Python truthiness of `page and quads` on a fuzzy-tier result: a
page object is always truthy, a quad list only when non-empty. -/
def fuzzyTruthy : Option (Nat × List Quad) → Bool
  | some (_, qs) => !qs.isEmpty
  | Option.none => false

/-- The local page window `[old - W, min(page_count, old + W + 1))`
(`max(0, ...)` is Nat subtraction). -/
def local_page_indices (doc : Doc) (old_page_number : Nat) : List Nat :=
  let start_page_idx := old_page_number - LOCAL_PAGE_WINDOW
  let end_page_idx := min doc.page_count (old_page_number + LOCAL_PAGE_WINDOW + 1)
  List.range' start_page_idx (end_page_idx - start_page_idx)

/-- All page indices of the document. -/
def all_page_indices (doc : Doc) : List Nat := List.range doc.page_count

/-- src/main.py lines 72–128: normalize, then try local exact, global
exact, local fuzzy, global fuzzy, returning at the first success. -/
def find_text_occurrence (doc : Doc) (text : List Char) (fuzzy_ratio : ℚ)
    (fuzzy_allowance : Int) (old_page_number : Nat) :
    Option (Nat × List Quad) × MatchType :=
  let search_text := normalizeWs text
  if search_text = [] then (Option.none, MatchType.none)
  else
    let locals := local_page_indices doc old_page_number
    let alls := all_page_indices doc
    match exactSearchFirst doc search_text locals with
    | some r => (some r, MatchType.exact)
    | Option.none =>
      match exactSearchFirst doc search_text alls with
      | some r => (some r, MatchType.exact)
      | Option.none =>
        let r3 := find_best_fuzzy_match_in_pages doc search_text fuzzy_ratio fuzzy_allowance locals
        if fuzzyTruthy r3 then (r3, MatchType.fuzzy)
        else
          let r4 := find_best_fuzzy_match_in_pages doc search_text fuzzy_ratio fuzzy_allowance alls
          if fuzzyTruthy r4 then (r4, MatchType.fuzzy)
          else (Option.none, MatchType.none)

/-- Tier 1 in isolation: local exact search. -/
def tierLocalExact (doc : Doc) (s : List Char) (old_page_number : Nat) :
    Option ((Nat × List Quad) × MatchType) :=
  (exactSearchFirst doc s (local_page_indices doc old_page_number)).map
    fun r => (r, MatchType.exact)

/-- Tier 2 in isolation: whole-document exact search. -/
def tierGlobalExact (doc : Doc) (s : List Char) : Option ((Nat × List Quad) × MatchType) :=
  (exactSearchFirst doc s (all_page_indices doc)).map fun r => (r, MatchType.exact)

/-- Tier 3 in isolation: fuzzy search over the local window. -/
def tierLocalFuzzy (doc : Doc) (s : List Char) (fuzzy_ratio : ℚ) (fuzzy_allowance : Int)
    (old_page_number : Nat) : Option ((Nat × List Quad) × MatchType) :=
  let r := find_best_fuzzy_match_in_pages doc s fuzzy_ratio fuzzy_allowance
    (local_page_indices doc old_page_number)
  if fuzzyTruthy r then r.map fun x => (x, MatchType.fuzzy) else Option.none

/-- Tier 4 in isolation: fuzzy search over the whole document. -/
def tierGlobalFuzzy (doc : Doc) (s : List Char) (fuzzy_ratio : ℚ) (fuzzy_allowance : Int) :
    Option ((Nat × List Quad) × MatchType) :=
  let r := find_best_fuzzy_match_in_pages doc s fuzzy_ratio fuzzy_allowance (all_page_indices doc)
  if fuzzyTruthy r then r.map fun x => (x, MatchType.fuzzy) else Option.none

/-- The four tiers in their fixed order. -/
def tiersInOrder (doc : Doc) (s : List Char) (fuzzy_ratio : ℚ) (fuzzy_allowance : Int)
    (old_page_number : Nat) : List (Option ((Nat × List Quad) × MatchType)) :=
  [tierLocalExact doc s old_page_number,
   tierGlobalExact doc s,
   tierLocalFuzzy doc s fuzzy_ratio fuzzy_allowance old_page_number,
   tierGlobalFuzzy doc s fuzzy_ratio fuzzy_allowance]

/-! ## The transfer session `transfer_annotations` (src/main.py lines 130–327)

File I/O, the table of contents, console printing, and the in-memory
copy of the target document are outside the claims; the session core is
the two passes over the source annotations with their counters, the
failure list, and the xref → new-annotation map. -/

/-- The source annotation kinds the session distinguishes
(`annot.type[0]`): the three markup codes, `PDF_ANNOT_TEXT` (sticky
note), and everything else. -/
inductive AnnotType
  | highlight
  | underline
  | squiggly
  | text
  | other
deriving DecidableEq

/-- `markup_types = [PDF_ANNOT_HIGHLIGHT, PDF_ANNOT_UNDERLINE, PDF_ANNOT_SQUIGGLY]`. -/
def markup_types : List AnnotType := [.highlight, .underline, .squiggly]

/-- A source-document annotation together with the text the library
extracts under its rectangle (`old_page.get_text("text", clip=annot.rect)`),
its info dictionary fields, and its stroke color when present. -/
structure SrcAnnot where
  atype : AnnotType
  xref : Nat
  irt_xref : Nat
  extractedText : List Char
  content : Option (List Char)
  title : Option (List Char)
  stroke : Option (List ℚ)
deriving DecidableEq

/-- The note content written into a created annotation: either the
source content copied verbatim (exact match), or the synthesized fuzzy
disclosure block (page distance, original text, then the old content
when non-empty). -/
inductive NoteContent
  | plain (content : List Char)
  | fuzzyDisclosure (page_distance : Nat) (original_text : List Char)
      (old_content : Option (List Char))
deriving DecidableEq

/-- A newly created markup annotation in the target document: which
creation call was used, its page, its region, and the info set on it. -/
structure NewAnnot where
  kind : AnnotType
  page : Nat
  quads : List Quad
  stroke : Option (List ℚ)
  content : NoteContent
  title : List Char
deriving DecidableEq

/-- A reply note created in pass 2 on its parent's page. -/
structure NewReply where
  page : Nat
  content : List Char
  title : List Char
deriving DecidableEq

/-- Python dict assignment `m[k] = v`: replace in place when the key is
present, append otherwise. -/
def mapInsert (m : List (Nat × NewAnnot)) (k : Nat) (v : NewAnnot) :
    List (Nat × NewAnnot) :=
  if m.any (fun e => e.1 = k) then m.map (fun e => if e.1 = k then (k, v) else e)
  else m ++ [(k, v)]

/-- Python dict lookup (`k in m` / `m[k]`). -/
def mapLookup (m : List (Nat × NewAnnot)) (k : Nat) : Option NewAnnot :=
  (m.find? (fun e => e.1 = k)).map (fun e => e.2)

/-- The session's mutable aggregates: the four counters, the failure
list, the xref → new-annotation map, and the replies created in pass 2. -/
structure SessionState where
  transferred_count : Nat
  transferred_fuzzy_count : Nat
  failed_count : Nat
  unsupported_count : Nat
  failed_annotations : List (Nat × List Char)
  new_annot_map : List (Nat × NewAnnot)
  new_replies : List NewReply
deriving DecidableEq

/-- All counters zero, all aggregates empty. -/
def initState : SessionState := ⟨0, 0, 0, 0, [], [], []⟩

/-- Maximum accepted page distance (`MAX_PAGE_DISTANCE = 5`). -/
def MAX_PAGE_DISTANCE : Nat := 5

/-- Stricter limit for fuzzy matches (`FUZZY_MAX_PAGE_DISTANCE = 5`). -/
def FUZZY_MAX_PAGE_DISTANCE : Nat := 5

/-- Which branch of the pass-1 loop body an annotation took. -/
inductive Pass1Outcome
  | unsupportedType
  | emptyText
  | tooFar
  | tooFarFuzzy
  | notFound
  | okExact
  | okFuzzy
  | noAnnotCreated
deriving DecidableEq

/-- The `if/elif` dispatch on the annotation type over the three
creation calls; yields nothing for a non-markup type (in which case the
Python loop body silently does nothing further). -/
def mkNewAnnot (t : AnnotType) (page : Nat) (quads : List Quad) : Option NewAnnot :=
  if t = .highlight then some ⟨.highlight, page, quads, Option.none, .plain [], []⟩
  else if t = .underline then some ⟨.underline, page, quads, Option.none, .plain [], []⟩
  else if t = .squiggly then some ⟨.squiggly, page, quads, Option.none, .plain [], []⟩
  else Option.none

/-- Python truthiness of `annot.colors.get("stroke")`: present and
non-empty. -/
def strokeTruthy : Option (List ℚ) → Bool
  | some c => !c.isEmpty
  | Option.none => false

/-- One pass-1 loop body (src/main.py lines 177–268): type filter,
normalization, the four-tier search, the two page-distance gates, then
creation, info/color setting, counter update, and map insertion. -/
def processAnnot (output_doc : Doc) (fuzzy_ratio : ℚ) (fuzzy_allowance : Int)
    (old_page_number : Nat) (st : SessionState) (annot : SrcAnnot) :
    SessionState × Pass1Outcome :=
  if annot.atype ∉ markup_types then
    ({ st with unsupported_count := st.unsupported_count + 1 }, .unsupportedType)
  else
    let target_text := normalizeWs annot.extractedText
    if target_text = [] then
      ({ st with
          failed_annotations :=
            st.failed_annotations ++ [(old_page_number + 1, "Empty Annotation Text".toList)],
          failed_count := st.failed_count + 1 }, .emptyText)
    else
      match find_text_occurrence output_doc target_text fuzzy_ratio fuzzy_allowance
          old_page_number with
      | (some (new_page, quads), match_type) =>
        if match_type = MatchType.none then
          ({ st with
              failed_annotations := st.failed_annotations ++ [(old_page_number + 1, target_text)],
              failed_count := st.failed_count + 1 }, .notFound)
        else
          let page_distance := ((new_page : Int) - (old_page_number : Int)).natAbs
          if page_distance > MAX_PAGE_DISTANCE then
            ({ st with
                failed_annotations := st.failed_annotations ++ [(old_page_number + 1, target_text)],
                failed_count := st.failed_count + 1 }, .tooFar)
          else if match_type = MatchType.fuzzy ∧ page_distance > FUZZY_MAX_PAGE_DISTANCE then
            ({ st with
                failed_annotations := st.failed_annotations ++ [(old_page_number + 1, target_text)],
                failed_count := st.failed_count + 1 }, .tooFarFuzzy)
          else
            match mkNewAnnot annot.atype new_page quads with
            | Option.none => (st, .noAnnotCreated)
            | some created =>
              if match_type = MatchType.exact then
                let new_annot : NewAnnot :=
                  { created with
                      stroke := if strokeTruthy annot.stroke then annot.stroke else Option.none,
                      content := NoteContent.plain (annot.content.getD []),
                      title := annot.title.getD "Note".toList }
                ({ st with
                    transferred_count := st.transferred_count + 1,
                    new_annot_map := mapInsert st.new_annot_map annot.xref new_annot },
                  .okExact)
              else
                let old_content := annot.content.getD []
                let new_annot : NewAnnot :=
                  { created with
                      content := NoteContent.fuzzyDisclosure page_distance target_text
                        (if old_content = [] then Option.none else some old_content),
                      title := annot.title.getD "Note (Fuzzy)".toList }
                ({ st with
                    transferred_fuzzy_count := st.transferred_fuzzy_count + 1,
                    new_annot_map := mapInsert st.new_annot_map annot.xref new_annot },
                  .okFuzzy)
      | (Option.none, _) =>
        -- `match_type == "none"` (the locator never pairs a missing page
        -- with a non-none kind).
        ({ st with
            failed_annotations := st.failed_annotations ++ [(old_page_number + 1, target_text)],
            failed_count := st.failed_count + 1 }, .notFound)

/-- Which branch of the pass-2 loop body an annotation took. -/
inductive Pass2Outcome
  | replyOk
  | replyUnsupported
  | skipped
deriving DecidableEq

/-- One pass-2 loop body (src/main.py lines 273–298): sticky notes whose
in-reply-to xref is in the map get a new note on the parent's page and
bump `transferred_count`; other sticky notes bump `unsupported_count`;
everything else is untouched. -/
def processReply (st : SessionState) (annot : SrcAnnot) : SessionState × Pass2Outcome :=
  if annot.atype = AnnotType.text then
    match mapLookup st.new_annot_map annot.irt_xref with
    | some parent =>
      let content := annot.content.getD "Reply".toList
      let title := annot.title.getD "Reply".toList
      ({ st with
          new_replies := st.new_replies ++ [⟨parent.page, content, title⟩],
          transferred_count := st.transferred_count + 1 }, .replyOk)
    | Option.none =>
      ({ st with unsupported_count := st.unsupported_count + 1 }, .replyUnsupported)
  else (st, .skipped)

/-- Drive a loop body over a list, threading the state and recording the
branch taken at each element. -/
def runSteps {α ω : Type} (step : SessionState → α → SessionState × ω)
    (st : SessionState) (xs : List α) : SessionState × List ω :=
  xs.foldl (fun acc x => ((step acc.1 x).1, acc.2 ++ [(step acc.1 x).2])) (st, [])

/-- The source document for the session: its pages' annotation lists, in
page order (a page's index is its 0-based page number). -/
abbrev OldDoc := List (List SrcAnnot)

/-- Pass-1 iteration order: `for old_page in old_doc: for annot in
old_page.annots()`, each annotation paired with its page number. -/
def pageAnnots (old_doc : OldDoc) : List (Nat × SrcAnnot) :=
  old_doc.enum.flatMap fun pi => pi.2.map fun a => (pi.1, a)

/-- Pass-2 iteration order: the same nested loops, page number unused. -/
def allAnnots (old_doc : OldDoc) : List SrcAnnot := old_doc.flatten

/-- Pass 1: transfer text markups. -/
def pass1 (output_doc : Doc) (fuzzy_ratio : ℚ) (fuzzy_allowance : Int)
    (old_doc : OldDoc) (st : SessionState) : SessionState × List Pass1Outcome :=
  runSteps (fun st pa => processAnnot output_doc fuzzy_ratio fuzzy_allowance pa.1 st pa.2)
    st (pageAnnots old_doc)

/-- Pass 2: transfer replies, strictly after pass 1. -/
def pass2 (old_doc : OldDoc) (st : SessionState) : SessionState × List Pass2Outcome :=
  runSteps processReply st (allAnnots old_doc)

/-- The session core of `transfer_annotations`: pass 1 from the empty
state, then pass 2 on the resulting state; returns the final state and
the branch trace of each pass. -/
def transfer_annotations (output_doc : Doc) (old_doc : OldDoc) (fuzzy_ratio : ℚ)
    (fuzzy_allowance : Int) : SessionState × List Pass1Outcome × List Pass2Outcome :=
  let r1 := pass1 output_doc fuzzy_ratio fuzzy_allowance old_doc initState
  let r2 := pass2 old_doc r1.1
  (r2.1, r1.2, r2.2)

/-! ## Derived notions used by the claims -/

/-- Short-circuiting composition of a tier list: the first tier that
yields a result determines the answer; if none does, the result is the
`"none"` match kind. -/
def composeTiers (ts : List (Option ((Nat × List Quad) × MatchType))) :
    Option (Nat × List Quad) × MatchType :=
  match ts.findSome? id with
  | some (r, mt) => (some r, mt)
  | Option.none => (Option.none, MatchType.none)

/-- The general page-distance gate (`if page_distance > MAX_PAGE_DISTANCE`),
match-kind independent. -/
def distance_gate (maxDistance : Nat) (page_distance : Nat) : Bool :=
  !(page_distance > maxDistance)

/-- The stricter fuzzy gate
(`if match_type == "fuzzy" and page_distance > FUZZY_MAX_PAGE_DISTANCE`). -/
def fuzzy_distance_gate (maxFuzzyDistance : Nat) (match_type : MatchType)
    (page_distance : Nat) : Bool :=
  !(decide (match_type = MatchType.fuzzy ∧ page_distance > maxFuzzyDistance))

/-- A located match is accepted when it passes the general gate and then
the fuzzy gate, in that order. -/
def transfer_accepts (maxDistance maxFuzzyDistance : Nat) (match_type : MatchType)
    (page_distance : Nat) : Bool :=
  distance_gate maxDistance page_distance &&
    fuzzy_distance_gate maxFuzzyDistance match_type page_distance

/-- How pass 2 treats one source annotation, as a function of the
completed pass-1 map alone: sticky notes whose in-reply-to xref resolves
are re-attached, other sticky notes are unsupported, everything else is
skipped. -/
def replyDecision (m : List (Nat × NewAnnot)) (a : SrcAnnot) : Pass2Outcome :=
  if a.atype = AnnotType.text then
    match mapLookup m a.irt_xref with
    | some _ => .replyOk
    | Option.none => .replyUnsupported
  else .skipped

/-- The state change shared by all four pass-1 failure branches: bump
`failed_count` and append one record. -/
def failSt (st : SessionState) (p : Nat) (txt : List Char) : SessionState :=
  { st with
      failed_annotations := st.failed_annotations ++ [(p + 1, txt)],
      failed_count := st.failed_count + 1 }

/-- The pass-1 branches that record a failure (one counter bump, one
appended record). -/
def isFailureOutcome : Pass1Outcome → Bool
  | .emptyText | .tooFar | .tooFarFuzzy | .notFound => true
  | _ => false

/-- Numeric contribution of a pass-1 branch to `failed_count`. -/
def gFail (o : Pass1Outcome) : Nat := if isFailureOutcome o then 1 else 0

/-- Numeric contribution of a pass-1 branch to `transferred_count`. -/
def gExact (o : Pass1Outcome) : Nat := if o = .okExact then 1 else 0

/-- Numeric contribution of a pass-1 branch to `transferred_fuzzy_count`. -/
def gFuzzy (o : Pass1Outcome) : Nat := if o = .okFuzzy then 1 else 0

/-- Numeric contribution of a pass-1 branch to `unsupported_count`. -/
def gUnsupported (o : Pass1Outcome) : Nat := if o = .unsupportedType then 1 else 0

/-- Numeric contribution of a pass-2 branch to `transferred_count`. -/
def gReplyOk (o : Pass2Outcome) : Nat := if o = .replyOk then 1 else 0

/-- Numeric contribution of a pass-2 branch to `unsupported_count`. -/
def gReplyUnsupported (o : Pass2Outcome) : Nat := if o = .replyUnsupported then 1 else 0

/-! ## Concrete instances used by witnesses and counterexamples -/

/-- A page with no words and no exact-search hits. -/
def emptyPage : Page := ⟨[], fun _ => []⟩

/-- A unit square quadrilateral. -/
def q0 : Quad := (Rect.mk 0 0 1 1).quad

/-- The word token `hello`. -/
def wHello : Word := ⟨⟨0, 0, 1, 1⟩, "hello".toList⟩

/-- The word token `world`. -/
def wWorld : Word := ⟨⟨2, 0, 3, 1⟩, "world".toList⟩

/-- A page whose extracted words are `hello world` and on which exact
search never hits (`hello wrld` is not a substring of its text). -/
def pgFuzzy : Page := ⟨[wHello, wWorld], fun _ => []⟩

/-- A one-page document carrying `pgFuzzy`. -/
def docFuzzy : Doc := ⟨[pgFuzzy]⟩

/-- A page on which exact search finds `hello` (one quad), nothing else. -/
def pgExact : Page := ⟨[], fun s => if s = "hello".toList then [q0] else []⟩

/-- A one-page document carrying `pgExact`. -/
def docExact : Doc := ⟨[pgExact]⟩

/-- A seven-page document whose only `hello` hit is on page 6 —
outside the accepted page distance from page 0. -/
def docFar : Doc := ⟨List.replicate 6 emptyPage ++ [pgExact]⟩

/-- A source highlight whose covered text is `hello`. -/
def aHl : SrcAnnot := ⟨.highlight, 10, 0, "hello".toList, some "note".toList, Option.none, Option.none⟩

/-- A source reply (sticky note) to `aHl` (in-reply-to xref 10). -/
def aReply : SrcAnnot := ⟨.text, 11, 10, [], some "re".toList, Option.none, Option.none⟩

/-- A source highlight whose covered text is `xyz` (absent everywhere). -/
def aXyz : SrcAnnot := ⟨.highlight, 12, 0, "xyz".toList, Option.none, Option.none, Option.none⟩

/-- A source highlight whose covered text is far from every window of
`docFuzzy` (edit distance 12 against a budget of 8). -/
def aQ : SrcAnnot := ⟨.highlight, 13, 0, "qqqqqqqqqqqq".toList, Option.none, Option.none, Option.none⟩

/-- A one-page source document: a highlight and a reply to it. -/
def oldDoc3 : OldDoc := [[aHl, aReply]]

/-- A page whose only word is `ac`. -/
def pgC4 : Page := ⟨[⟨⟨0, 0, 1, 1⟩, "ac".toList⟩], fun _ => []⟩

/-- A one-page document carrying `pgC4`. -/
def docC4 : Doc := ⟨[pgC4]⟩

/-- The default CLI fuzzy ratio `0.3`. -/
def ratio30 : ℚ := mkRat 3 10

/-- A negative fuzzy ratio `-0.25` (accepted by the CLI parser), on
which `int()` truncation and `floor` differ. -/
def ratioNeg : ℚ := mkRat (-1) 4

/-! ## Lemmas: the edit-distance budget -/

/-- On nonnegative rationals Python's `int()` is the floor. -/
theorem pyTrunc_eq_floor (q : ℚ) (h : 0 ≤ q) : pyTrunc q = ⌊q⌋ := by
  simp [pyTrunc, h]

/-- Truncation toward zero is monotone. -/
theorem pyTrunc_mono {q q' : ℚ} (h : q ≤ q') : pyTrunc q ≤ pyTrunc q' := by
  unfold pyTrunc
  by_cases h0 : 0 ≤ q
  · have h0' : 0 ≤ q' := le_trans h0 h
    simp only [h0, h0', if_true]
    exact Int.floor_le_floor h
  · by_cases h0' : 0 ≤ q'
    · simp only [h0, h0', if_true, if_false]
      calc ⌈q⌉ ≤ ⌈(0 : ℚ)⌉ := Int.ceil_le_ceil (le_of_not_le h0)
        _ = 0 := by simp
        _ ≤ ⌊q'⌋ := Int.floor_nonneg.mpr h0'
    · simp only [h0, h0', if_false]
      exact Int.ceil_le_ceil h

/-- The executable budget is exactly `int(len(text) * ratio) + base`:
truncation toward zero of the rational product. -/
theorem allowed_distance_eq_pyTrunc (t : List Char) (r : ℚ) (b : Int) :
    allowed_distance t r b = pyTrunc ((t.length : ℚ) * r) + b := by
  unfold allowed_distance
  congr 1
  have hq : (t.length : ℚ) * r = ((t.length * r.num : Int) : ℚ) / ((r.den : ℕ) : ℚ) := by
    conv_lhs => rw [← Rat.num_div_den r]
    push_cast
    rw [mul_div_assoc]
  set a : Int := (t.length : Int) * r.num with ha
  have hden : (0 : Int) < (r.den : Int) := by exact_mod_cast r.den_pos
  by_cases h0 : 0 ≤ (t.length : ℚ) * r
  · have ha0 : 0 ≤ a := by
      have : (0 : ℚ) ≤ ((a : Int) : ℚ) / ((r.den : ℕ) : ℚ) := hq ▸ h0
      have hd : (0 : ℚ) < ((r.den : ℕ) : ℚ) := by exact_mod_cast r.den_pos
      by_contra hneg
      push_neg at hneg
      have : ((a : Int) : ℚ) / ((r.den : ℕ) : ℚ) < 0 :=
        div_neg_of_neg_of_pos (by exact_mod_cast hneg) hd
      linarith
    rw [pyTrunc_eq_floor _ h0, hq, Rat.floor_intCast_div_natCast,
      Int.tdiv_eq_ediv ha0 (le_of_lt hden)]
  · have hlt : (t.length : ℚ) * r < 0 := lt_of_not_le h0
    have ha0 : a < 0 := by
      by_contra hge
      push_neg at hge
      have hd : (0 : ℚ) < ((r.den : ℕ) : ℚ) := by exact_mod_cast r.den_pos
      have : (0 : ℚ) ≤ ((a : Int) : ℚ) / ((r.den : ℕ) : ℚ) :=
        div_nonneg (by exact_mod_cast hge) (le_of_lt hd)
      rw [← hq] at this
      linarith
    have hceil : pyTrunc ((t.length : ℚ) * r) = -⌊-((t.length : ℚ) * r)⌋ := by
      unfold pyTrunc
      rw [if_neg h0, Int.floor_neg, neg_neg]
    rw [hceil, hq, ← neg_div, ← Int.cast_neg, Rat.floor_intCast_div_natCast,
      ← Int.tdiv_eq_ediv (by omega) (le_of_lt hden), Int.neg_tdiv, neg_neg]

/-- The budget is monotone in both configurable parameters. -/
theorem allowed_distance_mono (t : List Char) {r r' : ℚ} {b b' : Int}
    (hr : r ≤ r') (hb : b ≤ b') :
    allowed_distance t r b ≤ allowed_distance t r' b' := by
  rw [allowed_distance_eq_pyTrunc, allowed_distance_eq_pyTrunc]
  have : (t.length : ℚ) * r ≤ (t.length : ℚ) * r' :=
    mul_le_mul_of_nonneg_left hr (by positivity)
  exact add_le_add (pyTrunc_mono this) hb

/-! ## Lemmas: the best-window fold keeps the first minimum -/

/-- An equal-distance later candidate never replaces the incumbent. -/
theorem updateBest_eq_of_not_lt (b c : Cand) (h : ¬ c.dist < b.dist) :
    updateBest (some b) c = some b := by
  simp [updateBest, h]

/-- Once a candidate has been seen the running best never returns to
`float('inf')`. -/
theorem foldl_updateBest_some_ne_none (cs : List Cand) :
    ∀ b : Cand, cs.foldl updateBest (some b) ≠ Option.none := by
  induction cs with
  | nil => intro b h; exact Option.noConfusion h
  | cons x xs ih =>
    intro b
    simp only [List.foldl_cons, updateBest]
    split <;> exact ih _

/-- The fold yields a candidate exactly when the stream is non-empty. -/
theorem foldBest_eq_none_iff (cs : List Cand) :
    cs.foldl updateBest Option.none = Option.none ↔ cs = [] := by
  cases cs with
  | nil => simp
  | cons x xs =>
    constructor
    · intro h
      exfalso
      apply foldl_updateBest_some_ne_none xs x
      simpa [updateBest] using h
    · intro h
      exact (List.cons_ne_nil x xs h).elim

/-- The fold returns the first minimum-distance candidate of the
stream: it occurs at a position `i`, no candidate beats it, and every
candidate strictly before position `i` has strictly larger distance. -/
theorem foldBest_first_argmin (cs : List Cand) :
    ∀ c : Cand, cs.foldl updateBest Option.none = some c →
    ∃ i, cs[i]? = some c ∧ (∀ x ∈ cs, c.dist ≤ x.dist) ∧
      ∀ x ∈ cs.take i, c.dist < x.dist := by
  induction cs using List.reverseRecOn with
  | nil => intro c h; exact absurd h (by simp)
  | append_singleton cs z ih =>
    intro c h
    rw [List.foldl_append] at h
    cases hcs : cs.foldl updateBest Option.none with
    | none =>
      have hnil : cs = [] := (foldBest_eq_none_iff cs).mp hcs
      subst hnil
      simp only [List.foldl_nil, List.nil_append] at h ⊢
      simp only [List.foldl_cons, List.foldl_nil, updateBest] at h
      injection h with h'
      subst h'
      refine ⟨0, rfl, ?_, ?_⟩
      · intro x hx
        have hxz : x = z := by simpa using hx
        subst hxz
        exact le_refl _
      · intro x hx
        simp at hx
    | some b =>
      rw [hcs] at h
      obtain ⟨i, hi, hmin, hpre⟩ := ih b hcs
      have hilen : i < cs.length := by
        by_contra hge
        rw [List.getElem?_eq_none (le_of_not_lt hge)] at hi
        exact Option.noConfusion hi
      simp only [List.foldl_cons, List.foldl_nil] at h
      rw [show updateBest (some b) z = if z.dist < b.dist then some z else some b from rfl] at h
      split at h
      · -- strictly better: the new candidate takes over, at the last position
        rename_i hlt
        refine ⟨cs.length, ?_, ?_, ?_⟩
        · rw [List.getElem?_append_right (le_refl _)]
          simpa using h
        · intro x hx
          rcases List.mem_append.mp hx with hx | hx
          · have := hmin x hx
            have hcb : c = z := by injection h with h'; exact h'.symm
            subst hcb
            omega
          · have hxz : x = z := by simpa using hx
            subst hxz
            injection h with h'
            subst h'
            omega
        · intro x hx
          rw [List.take_append_of_le_length (le_refl _), List.take_length] at hx
          have := hmin x hx
          have hcb : c = z := by injection h with h'; exact h'.symm
          subst hcb
          omega
      · -- not better: the incumbent stays
        rename_i hnlt
        have hcb : c = b := by injection h with h'; exact h'.symm
        subst hcb
        refine ⟨i, ?_, ?_, ?_⟩
        · rw [List.getElem?_append, if_pos hilen]
          exact hi
        · intro x hx
          rcases List.mem_append.mp hx with hx | hx
          · exact hmin x hx
          · have hxz : x = z := by simpa using hx
            subst hxz
            omega
        · intro x hx
          rw [List.take_append_of_le_length (le_of_lt hilen)] at hx
          exact hpre x hx

/-! ## Lemmas: driving a pass over the annotation list -/

theorem runSteps_go {α ω : Type} (step : SessionState → α → SessionState × ω) :
    ∀ (xs : List α) (st : SessionState) (os : List ω),
      xs.foldl (fun acc x => ((step acc.1 x).1, acc.2 ++ [(step acc.1 x).2])) (st, os)
        = ((runSteps step st xs).1, os ++ (runSteps step st xs).2) := by
  intro xs
  induction xs with
  | nil => intro st os; simp [runSteps]
  | cons x xs ih =>
    intro st os
    have hR : runSteps step st (x :: xs)
        = ((runSteps step (step st x).1 xs).1,
            (step st x).2 :: (runSteps step (step st x).1 xs).2) := by
      show (x :: xs).foldl _ ((st, []) : SessionState × List ω) = _
      rw [List.foldl_cons]
      dsimp only
      rw [List.nil_append, ih (step st x).1 [(step st x).2]]
      simp
    rw [List.foldl_cons, ih (step st x).1 (os ++ [(step st x).2]), hR]
    simp

/-- Unfolding one step of a pass. -/
theorem runSteps_cons {α ω : Type} (step : SessionState → α → SessionState × ω)
    (st : SessionState) (x : α) (xs : List α) :
    runSteps step st (x :: xs)
      = ((runSteps step (step st x).1 xs).1,
          (step st x).2 :: (runSteps step (step st x).1 xs).2) := by
  show (x :: xs).foldl _ ((st, []) : SessionState × List ω) = _
  rw [List.foldl_cons]
  dsimp only
  rw [List.nil_append, runSteps_go step xs (step st x).1 [(step st x).2]]
  simp

/-- Every element of the list is processed: one recorded branch each,
with no early termination. -/
theorem runSteps_length {α ω : Type} (step : SessionState → α → SessionState × ω) :
    ∀ (xs : List α) (st : SessionState), (runSteps step st xs).2.length = xs.length := by
  intro xs
  induction xs with
  | nil => intro st; rfl
  | cons x xs ih => intro st; rw [runSteps_cons]; simp [ih]

/-- A counter that each step bumps by a function of its branch ends at
its initial value plus the sum of the per-branch contributions. -/
theorem runSteps_counter {α ω : Type} (step : SessionState → α → SessionState × ω)
    (f : SessionState → Nat) (g : ω → Nat)
    (hstep : ∀ st x, f (step st x).1 = f st + g (step st x).2) :
    ∀ (xs : List α) (st : SessionState),
      f (runSteps step st xs).1 = f st + ((runSteps step st xs).2.map g).sum := by
  intro xs
  induction xs with
  | nil => intro st; simp [runSteps]
  | cons x xs ih =>
    intro st
    rw [runSteps_cons]
    simp only [List.map_cons, List.sum_cons]
    rw [ih (step st x).1, hstep st x]
    omega

/-- A state component no step changes is unchanged by the whole pass. -/
theorem runSteps_proj_const {α ω β : Type} (step : SessionState → α → SessionState × ω)
    (f : SessionState → β) (hstep : ∀ st x, f (step st x).1 = f st) :
    ∀ (xs : List α) (st : SessionState), f (runSteps step st xs).1 = f st := by
  intro xs
  induction xs with
  | nil => intro st; rfl
  | cons x xs ih => intro st; rw [runSteps_cons]; rw [ih, hstep]

/-- When each step's branch does not depend on the state, the branch
trace is a pointwise map of the input list. -/
theorem runSteps_outcomes_pure {α ω : Type} (step : SessionState → α → SessionState × ω)
    (hpure : ∀ st st' x, (step st x).2 = (step st' x).2) :
    ∀ (xs : List α) (st : SessionState),
      (runSteps step st xs).2 = xs.map (fun x => (step st x).2) := by
  intro xs
  induction xs with
  | nil => intro st; rfl
  | cons x xs ih =>
    intro st
    rw [runSteps_cons]
    simp only [List.map_cons, List.cons.injEq, true_and]
    rw [ih (step st x).1]
    exact List.map_congr_left fun y _ => hpure (step st x).1 st y

/-- The sum of an indicator over a trace is the count of the branch. -/
theorem sum_map_ite_count {ω : Type} [DecidableEq ω] (a : ω) :
    ∀ (l : List ω), (l.map (fun o => if o = a then 1 else 0)).sum = l.count a := by
  intro l
  induction l with
  | nil => rfl
  | cons x xs ih =>
    simp only [List.map_cons, List.sum_cons, List.count_cons, ih]
    by_cases h : x = a
    · simp [h]
      omega
    · simp [h, Ne.symm h]

/-! ## Lemmas: one pass-1 loop body -/

/-- Complete case analysis of the pass-1 loop body: each disjunct names
the branch conditions and the exact state transition taken. -/
theorem processAnnot_spec (output_doc : Doc) (r : ℚ) (b : Int) (p : Nat)
    (st : SessionState) (a : SrcAnnot) :
    (a.atype ∉ markup_types ∧
        processAnnot output_doc r b p st a
          = ({ st with unsupported_count := st.unsupported_count + 1 },
              Pass1Outcome.unsupportedType))
    ∨ (a.atype ∈ markup_types ∧ normalizeWs a.extractedText = [] ∧
        processAnnot output_doc r b p st a
          = (failSt st p "Empty Annotation Text".toList, Pass1Outcome.emptyText))
    ∨ (a.atype ∈ markup_types ∧ normalizeWs a.extractedText ≠ [] ∧
        ∃ pg mt, find_text_occurrence output_doc (normalizeWs a.extractedText) r b p = (pg, mt)
          ∧ (((mt = MatchType.none ∨ pg = Option.none) ∧
                processAnnot output_doc r b p st a
                  = (failSt st p (normalizeWs a.extractedText), Pass1Outcome.notFound))
            ∨ (∃ np qs, pg = some (np, qs) ∧ mt ≠ MatchType.none ∧
                ((((np : Int) - (p : Int)).natAbs > MAX_PAGE_DISTANCE ∧
                    processAnnot output_doc r b p st a
                      = (failSt st p (normalizeWs a.extractedText), Pass1Outcome.tooFar))
                ∨ (((np : Int) - (p : Int)).natAbs ≤ MAX_PAGE_DISTANCE ∧
                    mt = MatchType.fuzzy ∧
                    ((np : Int) - (p : Int)).natAbs > FUZZY_MAX_PAGE_DISTANCE ∧
                    processAnnot output_doc r b p st a
                      = (failSt st p (normalizeWs a.extractedText), Pass1Outcome.tooFarFuzzy))
                ∨ (((np : Int) - (p : Int)).natAbs ≤ MAX_PAGE_DISTANCE ∧
                    ¬(mt = MatchType.fuzzy ∧
                        ((np : Int) - (p : Int)).natAbs > FUZZY_MAX_PAGE_DISTANCE) ∧
                    ((mkNewAnnot a.atype np qs = Option.none ∧
                        processAnnot output_doc r b p st a = (st, Pass1Outcome.noAnnotCreated))
                    ∨ (mt = MatchType.exact ∧ ∃ v,
                        processAnnot output_doc r b p st a
                          = ({ st with
                                transferred_count := st.transferred_count + 1,
                                new_annot_map := mapInsert st.new_annot_map a.xref v },
                              Pass1Outcome.okExact))
                    ∨ (mt = MatchType.fuzzy ∧ ∃ v,
                        processAnnot output_doc r b p st a
                          = ({ st with
                                transferred_fuzzy_count := st.transferred_fuzzy_count + 1,
                                new_annot_map := mapInsert st.new_annot_map a.xref v },
                              Pass1Outcome.okFuzzy)))))))) := by
  unfold processAnnot
  by_cases h1 : a.atype ∉ markup_types
  · rw [if_pos h1]
    exact Or.inl ⟨h1, rfl⟩
  · rw [if_neg h1]
    rw [not_not] at h1
    by_cases h2 : normalizeWs a.extractedText = []
    · rw [if_pos h2]
      exact Or.inr (Or.inl ⟨h1, h2, rfl⟩)
    · rw [if_neg h2]
      refine Or.inr (Or.inr ⟨h1, h2, ?_⟩)
      rcases hloc : find_text_occurrence output_doc (normalizeWs a.extractedText) r b p
        with ⟨pg, mt⟩
      refine ⟨pg, mt, rfl, ?_⟩
      cases pg with
      | none => exact Or.inl ⟨Or.inr rfl, rfl⟩
      | some pq =>
        obtain ⟨np, qs⟩ := pq
        dsimp only
        by_cases h3 : mt = MatchType.none
        · rw [if_pos h3]
          exact Or.inl ⟨Or.inl h3, rfl⟩
        · rw [if_neg h3]
          refine Or.inr ⟨np, qs, rfl, h3, ?_⟩
          by_cases h4 : ((np : Int) - (p : Int)).natAbs > MAX_PAGE_DISTANCE
          · rw [if_pos h4]
            exact Or.inl ⟨h4, rfl⟩
          · rw [if_neg h4]
            by_cases h5 : mt = MatchType.fuzzy ∧
                ((np : Int) - (p : Int)).natAbs > FUZZY_MAX_PAGE_DISTANCE
            · rw [if_pos h5]
              exact Or.inr (Or.inl ⟨le_of_not_lt h4, h5.1, h5.2, rfl⟩)
            · rw [if_neg h5]
              refine Or.inr (Or.inr ⟨le_of_not_lt h4, h5, ?_⟩)
              cases hmk : mkNewAnnot a.atype np qs with
              | none => exact Or.inl ⟨rfl, rfl⟩
              | some created =>
                dsimp only
                by_cases h6 : mt = MatchType.exact
                · rw [if_pos h6]
                  exact Or.inr (Or.inl ⟨h6, _, rfl⟩)
                · rw [if_neg h6]
                  have hmtf : mt = MatchType.fuzzy := by
                    cases mt <;> simp_all
                  exact Or.inr (Or.inr ⟨hmtf, _, rfl⟩)

theorem processAnnot_failed_count (output_doc : Doc) (r : ℚ) (b : Int) (p : Nat)
    (st : SessionState) (a : SrcAnnot) :
    (processAnnot output_doc r b p st a).1.failed_count
      = st.failed_count + gFail (processAnnot output_doc r b p st a).2 := by
  rcases processAnnot_spec output_doc r b p st a with
    ⟨h1, hres⟩ | ⟨h1, h2, hres⟩ |
    ⟨h1, h2, pg, mt, hloc,
      ⟨hdeg, hres⟩ |
      ⟨np, qs, hpg, hmt,
        ⟨hd, hres⟩ | ⟨hd1, hmf, hd2, hres⟩ |
        ⟨hd1, hnf, ⟨hmk, hres⟩ | ⟨hmt2, v, hres⟩ | ⟨hmt2, v, hres⟩⟩⟩⟩
  all_goals rw [hres]
  all_goals simp [failSt, gFail, isFailureOutcome]

theorem processAnnot_records_len (output_doc : Doc) (r : ℚ) (b : Int) (p : Nat)
    (st : SessionState) (a : SrcAnnot) :
    (processAnnot output_doc r b p st a).1.failed_annotations.length
      = st.failed_annotations.length + gFail (processAnnot output_doc r b p st a).2 := by
  rcases processAnnot_spec output_doc r b p st a with
    ⟨h1, hres⟩ | ⟨h1, h2, hres⟩ |
    ⟨h1, h2, pg, mt, hloc,
      ⟨hdeg, hres⟩ |
      ⟨np, qs, hpg, hmt,
        ⟨hd, hres⟩ | ⟨hd1, hmf, hd2, hres⟩ |
        ⟨hd1, hnf, ⟨hmk, hres⟩ | ⟨hmt2, v, hres⟩ | ⟨hmt2, v, hres⟩⟩⟩⟩
  all_goals rw [hres]
  all_goals simp [failSt, gFail, isFailureOutcome]

/-- Each failing branch appends exactly one record; every other branch
leaves the failure list untouched. -/
theorem processAnnot_records_append (output_doc : Doc) (r : ℚ) (b : Int) (p : Nat)
    (st : SessionState) (a : SrcAnnot) :
    ∃ recs, (processAnnot output_doc r b p st a).1.failed_annotations
        = st.failed_annotations ++ recs
      ∧ recs.length = gFail (processAnnot output_doc r b p st a).2 := by
  rcases processAnnot_spec output_doc r b p st a with
    ⟨h1, hres⟩ | ⟨h1, h2, hres⟩ |
    ⟨h1, h2, pg, mt, hloc,
      ⟨hdeg, hres⟩ |
      ⟨np, qs, hpg, hmt,
        ⟨hd, hres⟩ | ⟨hd1, hmf, hd2, hres⟩ |
        ⟨hd1, hnf, ⟨hmk, hres⟩ | ⟨hmt2, v, hres⟩ | ⟨hmt2, v, hres⟩⟩⟩⟩
  all_goals rw [hres]
  all_goals solve
    | (refine ⟨[], ?_, ?_⟩ <;> simp [failSt, gFail, isFailureOutcome])
    | (refine ⟨[(p + 1, "Empty Annotation Text".toList)], ?_, ?_⟩ <;>
        simp [failSt, gFail, isFailureOutcome])
    | (refine ⟨[(p + 1, normalizeWs a.extractedText)], ?_, ?_⟩ <;>
        simp [failSt, gFail, isFailureOutcome])

theorem processAnnot_transferred_count (output_doc : Doc) (r : ℚ) (b : Int) (p : Nat)
    (st : SessionState) (a : SrcAnnot) :
    (processAnnot output_doc r b p st a).1.transferred_count
      = st.transferred_count + gExact (processAnnot output_doc r b p st a).2 := by
  rcases processAnnot_spec output_doc r b p st a with
    ⟨h1, hres⟩ | ⟨h1, h2, hres⟩ |
    ⟨h1, h2, pg, mt, hloc,
      ⟨hdeg, hres⟩ |
      ⟨np, qs, hpg, hmt,
        ⟨hd, hres⟩ | ⟨hd1, hmf, hd2, hres⟩ |
        ⟨hd1, hnf, ⟨hmk, hres⟩ | ⟨hmt2, v, hres⟩ | ⟨hmt2, v, hres⟩⟩⟩⟩
  all_goals rw [hres]
  all_goals simp [failSt, gExact]

theorem processAnnot_fuzzy_count (output_doc : Doc) (r : ℚ) (b : Int) (p : Nat)
    (st : SessionState) (a : SrcAnnot) :
    (processAnnot output_doc r b p st a).1.transferred_fuzzy_count
      = st.transferred_fuzzy_count + gFuzzy (processAnnot output_doc r b p st a).2 := by
  rcases processAnnot_spec output_doc r b p st a with
    ⟨h1, hres⟩ | ⟨h1, h2, hres⟩ |
    ⟨h1, h2, pg, mt, hloc,
      ⟨hdeg, hres⟩ |
      ⟨np, qs, hpg, hmt,
        ⟨hd, hres⟩ | ⟨hd1, hmf, hd2, hres⟩ |
        ⟨hd1, hnf, ⟨hmk, hres⟩ | ⟨hmt2, v, hres⟩ | ⟨hmt2, v, hres⟩⟩⟩⟩
  all_goals rw [hres]
  all_goals simp [failSt, gFuzzy]

theorem processAnnot_unsupported_count (output_doc : Doc) (r : ℚ) (b : Int) (p : Nat)
    (st : SessionState) (a : SrcAnnot) :
    (processAnnot output_doc r b p st a).1.unsupported_count
      = st.unsupported_count + gUnsupported (processAnnot output_doc r b p st a).2 := by
  rcases processAnnot_spec output_doc r b p st a with
    ⟨h1, hres⟩ | ⟨h1, h2, hres⟩ |
    ⟨h1, h2, pg, mt, hloc,
      ⟨hdeg, hres⟩ |
      ⟨np, qs, hpg, hmt,
        ⟨hd, hres⟩ | ⟨hd1, hmf, hd2, hres⟩ |
        ⟨hd1, hnf, ⟨hmk, hres⟩ | ⟨hmt2, v, hres⟩ | ⟨hmt2, v, hres⟩⟩⟩⟩
  all_goals rw [hres]
  all_goals simp [failSt, gUnsupported]

/-- The branch taken by the pass-1 body depends only on the annotation,
the target document, and the parameters — never on the running state. -/
theorem processAnnot_outcome_const (output_doc : Doc) (r : ℚ) (b : Int) (p : Nat)
    (st st₁ : SessionState) (a : SrcAnnot) :
    (processAnnot output_doc r b p st a).2 = (processAnnot output_doc r b p st₁ a).2 := by
  unfold processAnnot
  by_cases h1 : a.atype ∉ markup_types
  · simp only [if_pos h1]
  · simp only [if_neg h1]
    by_cases h2 : normalizeWs a.extractedText = []
    · simp only [if_pos h2]
    · simp only [if_neg h2]
      rcases hloc : find_text_occurrence output_doc (normalizeWs a.extractedText) r b p
        with ⟨pg, mt⟩
      cases pg with
      | none => rfl
      | some pq =>
        obtain ⟨np, qs⟩ := pq
        dsimp only
        by_cases h3 : mt = MatchType.none
        · simp only [if_pos h3]
        · simp only [if_neg h3]
          by_cases h4 : ((np : Int) - (p : Int)).natAbs > MAX_PAGE_DISTANCE
          · simp only [if_pos h4]
          · simp only [if_neg h4]
            by_cases h5 : mt = MatchType.fuzzy ∧
                ((np : Int) - (p : Int)).natAbs > FUZZY_MAX_PAGE_DISTANCE
            · simp only [if_pos h5]
            · simp only [if_neg h5]
              cases hmk : mkNewAnnot a.atype np qs with
              | none => rfl
              | some created =>
                dsimp only
                by_cases h6 : mt = MatchType.exact
                · simp only [if_pos h6]
                · simp only [if_neg h6]

/-- Pass 1 counts an annotation as unsupported exactly when its type is
outside the three markup types. -/
theorem processAnnot_unsupported_iff (output_doc : Doc) (r : ℚ) (b : Int) (p : Nat)
    (st : SessionState) (a : SrcAnnot) :
    (processAnnot output_doc r b p st a).2 = Pass1Outcome.unsupportedType
      ↔ a.atype ∉ markup_types := by
  rcases processAnnot_spec output_doc r b p st a with
    ⟨h1, hres⟩ | ⟨h1, h2, hres⟩ |
    ⟨h1, h2, pg, mt, hloc,
      ⟨hdeg, hres⟩ |
      ⟨np, qs, hpg, hmt,
        ⟨hd, hres⟩ | ⟨hd1, hmf, hd2, hres⟩ |
        ⟨hd1, hnf, ⟨hmk, hres⟩ | ⟨hmt2, v, hres⟩ | ⟨hmt2, v, hres⟩⟩⟩⟩
  all_goals rw [hres]
  all_goals simp_all

/-- The xref map is inserted into exactly by the two success branches
and untouched by every other branch. -/
theorem processAnnot_map_cases (output_doc : Doc) (r : ℚ) (b : Int) (p : Nat)
    (st : SessionState) (a : SrcAnnot) :
    ((processAnnot output_doc r b p st a).1.new_annot_map = st.new_annot_map
        ∧ ¬((processAnnot output_doc r b p st a).2 = Pass1Outcome.okExact
            ∨ (processAnnot output_doc r b p st a).2 = Pass1Outcome.okFuzzy))
    ∨ (∃ v, (processAnnot output_doc r b p st a).1.new_annot_map
            = mapInsert st.new_annot_map a.xref v
        ∧ ((processAnnot output_doc r b p st a).2 = Pass1Outcome.okExact
            ∨ (processAnnot output_doc r b p st a).2 = Pass1Outcome.okFuzzy)) := by
  rcases processAnnot_spec output_doc r b p st a with
    ⟨h1, hres⟩ | ⟨h1, h2, hres⟩ |
    ⟨h1, h2, pg, mt, hloc,
      ⟨hdeg, hres⟩ |
      ⟨np, qs, hpg, hmt,
        ⟨hd, hres⟩ | ⟨hd1, hmf, hd2, hres⟩ |
        ⟨hd1, hnf, ⟨hmk, hres⟩ | ⟨hmt2, v, hres⟩ | ⟨hmt2, v, hres⟩⟩⟩⟩
  all_goals rw [hres]
  all_goals first
    | exact Or.inl ⟨rfl, by simp [failSt]⟩
    | exact Or.inr ⟨v, rfl, by simp⟩

/-! ## Lemmas: one pass-2 loop body -/

theorem processReply_outcome (st : SessionState) (a : SrcAnnot) :
    (processReply st a).2 = replyDecision st.new_annot_map a := by
  unfold processReply replyDecision
  repeat' split
  all_goals simp_all

theorem processReply_map_const (st : SessionState) (a : SrcAnnot) :
    (processReply st a).1.new_annot_map = st.new_annot_map := by
  unfold processReply
  repeat' split
  all_goals rfl

theorem processReply_failed_const (st : SessionState) (a : SrcAnnot) :
    (processReply st a).1.failed_count = st.failed_count := by
  unfold processReply
  repeat' split
  all_goals rfl

theorem processReply_records_const (st : SessionState) (a : SrcAnnot) :
    (processReply st a).1.failed_annotations = st.failed_annotations := by
  unfold processReply
  repeat' split
  all_goals rfl

theorem processReply_fuzzy_const (st : SessionState) (a : SrcAnnot) :
    (processReply st a).1.transferred_fuzzy_count = st.transferred_fuzzy_count := by
  unfold processReply
  repeat' split
  all_goals rfl

theorem processReply_transferred_count (st : SessionState) (a : SrcAnnot) :
    (processReply st a).1.transferred_count
      = st.transferred_count + gReplyOk (processReply st a).2 := by
  unfold processReply
  repeat' split
  all_goals simp [gReplyOk]

theorem processReply_unsupported_count (st : SessionState) (a : SrcAnnot) :
    (processReply st a).1.unsupported_count
      = st.unsupported_count + gReplyUnsupported (processReply st a).2 := by
  unfold processReply
  repeat' split
  all_goals simp [gReplyUnsupported]

/-! ## Lemmas: the xref → annotation dictionary -/

theorem mapAny_iff_mem_keys (m : List (Nat × NewAnnot)) (k : Nat) :
    m.any (fun e => e.1 = k) = true ↔ k ∈ m.map Prod.fst := by
  rw [List.any_eq_true]
  constructor
  · rintro ⟨e, he, hek⟩
    exact List.mem_map.mpr ⟨e, he, by simpa using hek⟩
  · intro h
    obtain ⟨e, he, hfk⟩ := List.mem_map.mp h
    exact ⟨e, he, by simp [hfk]⟩

theorem mapInsert_keys_of_mem {m : List (Nat × NewAnnot)} {k : Nat} (v : NewAnnot)
    (h : k ∈ m.map Prod.fst) :
    (mapInsert m k v).map Prod.fst = m.map Prod.fst := by
  unfold mapInsert
  rw [if_pos ((mapAny_iff_mem_keys m k).mpr h)]
  rw [List.map_map]
  apply List.map_congr_left
  intro e _
  by_cases he : e.1 = k
  · simp [he]
  · simp [he]

theorem mapInsert_keys_of_not_mem {m : List (Nat × NewAnnot)} {k : Nat} (v : NewAnnot)
    (h : k ∉ m.map Prod.fst) :
    (mapInsert m k v).map Prod.fst = m.map Prod.fst ++ [k] := by
  unfold mapInsert
  rw [if_neg ?_, List.map_append]
  · rfl
  · intro hc
    exact h ((mapAny_iff_mem_keys m k).mp hc)

theorem mapInsert_mem_key (m : List (Nat × NewAnnot)) (k : Nat) (v : NewAnnot) :
    k ∈ (mapInsert m k v).map Prod.fst := by
  by_cases h : k ∈ m.map Prod.fst
  · rw [mapInsert_keys_of_mem v h]; exact h
  · rw [mapInsert_keys_of_not_mem v h]; simp

theorem mapInsert_mem_key_of_mem {m : List (Nat × NewAnnot)} {k' : Nat} (k : Nat)
    (v : NewAnnot) (h : k' ∈ m.map Prod.fst) :
    k' ∈ (mapInsert m k v).map Prod.fst := by
  by_cases hk : k ∈ m.map Prod.fst
  · rw [mapInsert_keys_of_mem v hk]; exact h
  · rw [mapInsert_keys_of_not_mem v hk]; exact List.mem_append_left _ h

theorem mapInsert_nodup_keys {m : List (Nat × NewAnnot)} (k : Nat) (v : NewAnnot)
    (h : (m.map Prod.fst).Nodup) :
    ((mapInsert m k v).map Prod.fst).Nodup := by
  by_cases hk : k ∈ m.map Prod.fst
  · rw [mapInsert_keys_of_mem v hk]; exact h
  · rw [mapInsert_keys_of_not_mem v hk]
    rw [List.nodup_append]
    refine ⟨h, List.nodup_singleton k, ?_⟩
    intro a ha hb
    rw [List.mem_singleton] at hb
    subst hb
    exact hk ha

/-! ## Lemmas: pass-level invariants -/

/-- Once a key is in the map, the rest of pass 1 keeps it there. -/
theorem pass1_key_persists (output_doc : Doc) (r : ℚ) (b : Int) :
    ∀ (xs : List (Nat × SrcAnnot)) (st : SessionState) (k : Nat),
      k ∈ st.new_annot_map.map Prod.fst →
      k ∈ ((runSteps (fun st pa => processAnnot output_doc r b pa.1 st pa.2) st xs).1.new_annot_map.map
            Prod.fst) := by
  intro xs
  induction xs with
  | nil => intro st k h; exact h
  | cons x xs ih =>
    intro st k h
    rw [runSteps_cons]
    apply ih
    rcases processAnnot_map_cases output_doc r b x.1 st x.2 with ⟨heq, -⟩ | ⟨v, heq, -⟩
    · rw [heq]; exact h
    · rw [heq]; exact mapInsert_mem_key_of_mem _ _ h

/-- Pass 1 keeps the map's keys duplicate-free. -/
theorem pass1_nodup_keys (output_doc : Doc) (r : ℚ) (b : Int) :
    ∀ (xs : List (Nat × SrcAnnot)) (st : SessionState),
      (st.new_annot_map.map Prod.fst).Nodup →
      (((runSteps (fun st pa => processAnnot output_doc r b pa.1 st pa.2) st xs).1.new_annot_map.map
          Prod.fst).Nodup) := by
  intro xs
  induction xs with
  | nil => intro st h; exact h
  | cons x xs ih =>
    intro st h
    rw [runSteps_cons]
    apply ih
    rcases processAnnot_map_cases output_doc r b x.1 st x.2 with ⟨heq, -⟩ | ⟨v, heq, -⟩
    · rw [heq]; exact h
    · rw [heq]; exact mapInsert_nodup_keys _ _ h

/-- A successfully transferred markup's xref is a key of the map pass 1
produces. -/
theorem pass1_ok_key (output_doc : Doc) (r : ℚ) (b : Int) :
    ∀ (xs : List (Nat × SrcAnnot)) (st : SessionState) (i : Nat) (pa : Nat × SrcAnnot)
      (o : Pass1Outcome),
      xs[i]? = some pa →
      (runSteps (fun st pa => processAnnot output_doc r b pa.1 st pa.2) st xs).2[i]? = some o →
      (o = Pass1Outcome.okExact ∨ o = Pass1Outcome.okFuzzy) →
      pa.2.xref ∈
        ((runSteps (fun st pa => processAnnot output_doc r b pa.1 st pa.2) st xs).1.new_annot_map.map
          Prod.fst) := by
  intro xs
  induction xs with
  | nil => intro st i pa o hpa ho hok; simp at hpa
  | cons x xs ih =>
    intro st i pa o hpa ho hok
    rw [runSteps_cons] at ho ⊢
    cases i with
    | zero =>
      have hx : pa = x := by
        have h0 : x = pa := by simpa using hpa
        exact h0.symm
      subst hx
      have hoeq : o = (processAnnot output_doc r b pa.1 st pa.2).2 := by
        simpa using ho.symm
      subst hoeq
      rcases processAnnot_map_cases output_doc r b pa.1 st pa.2 with ⟨-, hnok⟩ | ⟨v, heq, -⟩
      · exact absurd hok hnok
      · apply pass1_key_persists
        rw [heq]
        exact mapInsert_mem_key _ _ _
    | succ i =>
      have hpa' : xs[i]? = some pa := by simpa using hpa
      have ho' : (runSteps (fun st pa => processAnnot output_doc r b pa.1 st pa.2)
          (processAnnot output_doc r b x.1 st x.2).1 xs).2[i]? = some o := by
        simpa using ho
      exact ih _ i pa o hpa' ho' hok

/-- Pass 2 never modifies the xref map. -/
theorem pass2_map_const (xs : List SrcAnnot) (st : SessionState) :
    (runSteps processReply st xs).1.new_annot_map = st.new_annot_map :=
  runSteps_proj_const processReply (fun s => s.new_annot_map) processReply_map_const xs st

/-- Pass 2 resolves every reply against the one fixed map it starts
with: the branch trace is a pointwise function of the annotation list
and that map, independent of processing order. -/
theorem pass2_outcomes (xs : List SrcAnnot) (st : SessionState) :
    (runSteps processReply st xs).2 = xs.map (replyDecision st.new_annot_map) := by
  induction xs generalizing st with
  | nil => rfl
  | cons x xs ih =>
    rw [runSteps_cons]
    simp only [List.map_cons, List.cons.injEq]
    refine ⟨processReply_outcome st x, ?_⟩
    rw [ih (processReply st x).1, processReply_map_const st x]

/-! ## Lemmas: the four-tier locator -/

theorem exactSearchFirst_eq_none_iff (doc : Doc) (s : List Char) (idxs : List Nat) :
    exactSearchFirst doc s idxs = Option.none
      ↔ ∀ i ∈ idxs, (doc.load_page i).search_for s = [] := by
  induction idxs with
  | nil => simp [exactSearchFirst]
  | cons i is ih =>
    rw [exactSearchFirst, List.findSome?_cons]
    by_cases h : (doc.load_page i).search_for s = []
    · rw [if_pos h]
      rw [exactSearchFirst] at ih
      rw [ih]
      simp [h]
    · rw [if_neg h]
      simp only [List.forall_mem_cons]
      constructor
      · intro hc; exact Option.noConfusion hc
      · intro hc; exact absurd hc.1 h

theorem exactSearchFirst_isSome_of (doc : Doc) (s : List Char) (idxs : List Nat)
    (i : Nat) (hi : i ∈ idxs) (h : (doc.load_page i).search_for s ≠ []) :
    ∃ r, exactSearchFirst doc s idxs = some r := by
  cases hE : exactSearchFirst doc s idxs with
  | some r => exact ⟨r, rfl⟩
  | none => exact absurd ((exactSearchFirst_eq_none_iff doc s idxs).mp hE i hi) h

theorem local_page_indices_subset (doc : Doc) (p : Nat) :
    ∀ i ∈ local_page_indices doc p, i ∈ all_page_indices doc := by
  intro i hi
  unfold local_page_indices at hi
  rw [List.mem_range'_1] at hi
  unfold all_page_indices
  rw [List.mem_range]
  unfold Doc.page_count at *
  omega

/-- The locator is literally the left-to-right composition of its four
tiers, short-circuiting at the first success. -/
theorem find_text_occurrence_eq_composeTiers (doc : Doc) (t : List Char) (r : ℚ)
    (b : Int) (p : Nat) (h : normalizeWs t ≠ []) :
    find_text_occurrence doc t r b p
      = composeTiers (tiersInOrder doc (normalizeWs t) r b p) := by
  unfold find_text_occurrence composeTiers tiersInOrder tierLocalExact tierGlobalExact
    tierLocalFuzzy tierGlobalFuzzy
  rw [if_neg h]
  cases h1 : exactSearchFirst doc (normalizeWs t) (local_page_indices doc p) with
  | some r1 => simp [h1, List.findSome?_cons]
  | none =>
    cases h2 : exactSearchFirst doc (normalizeWs t) (all_page_indices doc) with
    | some r2 => simp [h1, h2, List.findSome?_cons]
    | none =>
      cases h3 : find_best_fuzzy_match_in_pages doc (normalizeWs t) r b
          (local_page_indices doc p) with
      | some r3 =>
        by_cases hq3 : fuzzyTruthy (some r3) = true
        · simp [h1, h2, h3, hq3, List.findSome?_cons]
        · rw [Bool.not_eq_true] at hq3
          cases h4 : find_best_fuzzy_match_in_pages doc (normalizeWs t) r b
              (all_page_indices doc) with
          | some r4 =>
            by_cases hq4 : fuzzyTruthy (some r4) = true
            · simp [h1, h2, h3, h4, hq3, hq4, List.findSome?_cons]
            · rw [Bool.not_eq_true] at hq4
              simp [h1, h2, h3, h4, hq3, hq4, List.findSome?_cons]
          | none =>
            simp [h1, h2, h3, h4, hq3, List.findSome?_cons, fuzzyTruthy]
            by_cases hq : r3.2 = [] <;> simp [hq]
      | none =>
        cases h4 : find_best_fuzzy_match_in_pages doc (normalizeWs t) r b
            (all_page_indices doc) with
        | some r4 =>
          by_cases hq4 : fuzzyTruthy (some r4) = true
          · simp [h1, h2, h3, h4, hq4, List.findSome?_cons, fuzzyTruthy]
            by_cases hq : r4.2 = [] <;> simp [hq]
          · rw [Bool.not_eq_true] at hq4
            simp [h1, h2, h3, h4, hq4, List.findSome?_cons, fuzzyTruthy]
            by_cases hq : r4.2 = [] <;> simp [hq]
        | none => simp [h1, h2, h3, h4, List.findSome?_cons, fuzzyTruthy]

/-- A verbatim occurrence inside the local window makes the first tier
succeed: the result is an exact match and the fuzzy configuration is
irrelevant. -/
theorem find_text_occurrence_local_exact (doc : Doc) (t : List Char) (p i : Nat)
    (h : normalizeWs t ≠ []) (hi : i ∈ local_page_indices doc p)
    (hne : (doc.load_page i).search_for (normalizeWs t) ≠ []) :
    ∃ pq, ∀ (r : ℚ) (b : Int), find_text_occurrence doc t r b p = (some pq, MatchType.exact) := by
  obtain ⟨r0, hE⟩ := exactSearchFirst_isSome_of doc (normalizeWs t)
    (local_page_indices doc p) i hi hne
  refine ⟨r0, fun r b => ?_⟩
  simp only [find_text_occurrence]
  rw [if_neg h, hE]

/-- When every page's exact search misses and both fuzzy pools come back
empty, the locator reports the `"none"` kind. -/
theorem find_text_occurrence_all_fail (doc : Doc) (t : List Char) (r : ℚ) (b : Int)
    (p : Nat) (h : normalizeWs t ≠ [])
    (hex : ∀ i ∈ all_page_indices doc, (doc.load_page i).search_for (normalizeWs t) = [])
    (hf3 : find_best_fuzzy_match_in_pages doc (normalizeWs t) r b
        (local_page_indices doc p) = Option.none)
    (hf4 : find_best_fuzzy_match_in_pages doc (normalizeWs t) r b
        (all_page_indices doc) = Option.none) :
    find_text_occurrence doc t r b p = (Option.none, MatchType.none) := by
  have h1 : exactSearchFirst doc (normalizeWs t) (local_page_indices doc p) = Option.none :=
    (exactSearchFirst_eq_none_iff doc _ _).mpr
      (fun i hi => hex i (local_page_indices_subset doc p i hi))
  have h2 : exactSearchFirst doc (normalizeWs t) (all_page_indices doc) = Option.none :=
    (exactSearchFirst_eq_none_iff doc _ _).mpr hex
  simp only [find_text_occurrence]
  rw [if_neg h, h1, h2, hf3, hf4]
  rfl

/-! ## Lemmas: the fuzzy matcher's return value -/

theorem find_best_fuzzy_zero_words (doc : Doc) (t : List Char) (r : ℚ) (b : Int)
    (idxs : List Nat) (h : (splitWs t).length = 0) :
    find_best_fuzzy_match_in_pages doc t r b idxs = Option.none := by
  unfold find_best_fuzzy_match_in_pages
  rw [if_pos h]

theorem find_best_fuzzy_some_iff (doc : Doc) (t : List Char) (r : ℚ) (b : Int)
    (idxs : List Nat) (p : Nat) (qs : List Quad) (h : (splitWs t).length ≠ 0) :
    find_best_fuzzy_match_in_pages doc t r b idxs = some (p, qs)
      ↔ ∃ d, (fuzzyCandidates doc t (splitWs t).length idxs).foldl updateBest Option.none
            = some (p, qs, d)
          ∧ (d : Int) ≤ allowed_distance t r b := by
  unfold find_best_fuzzy_match_in_pages
  rw [if_neg h]
  cases hfold : (fuzzyCandidates doc t (splitWs t).length idxs).foldl updateBest Option.none with
  | none => simp
  | some c =>
    obtain ⟨p₁, qs₁, d₁⟩ := c
    dsimp only
    by_cases hle : (d₁ : Int) ≤ allowed_distance t r b
    · rw [if_pos hle]
      constructor
      · intro he
        simp only [Option.some.injEq, Prod.mk.injEq] at he
        exact ⟨d₁, by rw [he.1, he.2], hle⟩
      · rintro ⟨d, hd, -⟩
        simp only [Option.some.injEq, Prod.mk.injEq] at hd
        rw [hd.1, hd.2.1]
    · rw [if_neg hle]
      constructor
      · intro he; exact Option.noConfusion he
      · rintro ⟨d, hd, hdle⟩
        simp only [Option.some.injEq, Prod.mk.injEq] at hd
        rw [← hd.2.2] at hdle
        exact absurd hdle hle

theorem fuzzyCandidates_quads_len (doc : Doc) (t : List Char) (n : Nat)
    (idxs : List Nat) :
    ∀ c ∈ fuzzyCandidates doc t n idxs, c.2.1.length = n := by
  intro c hc
  unfold fuzzyCandidates at hc
  rw [List.mem_flatMap] at hc
  obtain ⟨idx, -, hc⟩ := hc
  unfold windowCandidates at hc
  by_cases hlen : (doc.load_page idx).words.length < n
  · rw [if_pos hlen] at hc
    simp at hc
  · rw [if_neg hlen] at hc
    rw [List.mem_map] at hc
    obtain ⟨i, hi, rfl⟩ := hc
    rw [List.mem_range] at hi
    simp only [List.length_map, List.length_take, List.length_drop]
    omega

theorem find_best_fuzzy_quads_len (doc : Doc) (t : List Char) (r : ℚ) (b : Int)
    (idxs : List Nat) (p : Nat) (qs : List Quad)
    (h : find_best_fuzzy_match_in_pages doc t r b idxs = some (p, qs)) :
    qs.length = (splitWs t).length := by
  by_cases hn : (splitWs t).length = 0
  · rw [find_best_fuzzy_zero_words doc t r b idxs hn] at h
    exact Option.noConfusion h
  · obtain ⟨d, hfold, -⟩ := (find_best_fuzzy_some_iff doc t r b idxs p qs hn).mp h
    obtain ⟨i, hi, -, -⟩ := foldBest_first_argmin _ _ hfold
    have hmem : (p, qs, d) ∈ fuzzyCandidates doc t (splitWs t).length idxs := by
      obtain ⟨hlt, heq⟩ := List.getElem?_eq_some.mp hi
      rw [← heq]
      exact List.getElem_mem _
    exact fuzzyCandidates_quads_len doc t _ idxs _ hmem

/-! ## Lemmas: session-level aggregates -/

theorem sum_map_bool_indicator {α : Type} (f : α → Bool) :
    ∀ l : List α, (l.map (fun a => if f a then 1 else 0)).sum = l.countP f := by
  intro l
  induction l with
  | nil => rfl
  | cons x xs ih =>
    rw [List.map_cons, List.sum_cons, List.countP_cons, ih]
    by_cases h : f x = true
    · simp [h]
      omega
    · rw [Bool.not_eq_true] at h
      simp [h]

/-- The session core is pass 1 from the empty state followed by pass 2. -/
theorem session_decomp (output_doc : Doc) (old_doc : OldDoc) (r : ℚ) (b : Int) :
    (transfer_annotations output_doc old_doc r b).1
        = (pass2 old_doc (pass1 output_doc r b old_doc initState).1).1
    ∧ (transfer_annotations output_doc old_doc r b).2.1
        = (pass1 output_doc r b old_doc initState).2
    ∧ (transfer_annotations output_doc old_doc r b).2.2
        = (pass2 old_doc (pass1 output_doc r b old_doc initState).1).2 :=
  ⟨rfl, rfl, rfl⟩

/-- After pass 1, every counter equals the summed per-branch
contributions of its trace. -/
theorem pass1_counter_eqs (output_doc : Doc) (r : ℚ) (b : Int) (old_doc : OldDoc) :
    (pass1 output_doc r b old_doc initState).1.failed_count
        = (((pass1 output_doc r b old_doc initState).2).map gFail).sum
    ∧ (pass1 output_doc r b old_doc initState).1.failed_annotations.length
        = (((pass1 output_doc r b old_doc initState).2).map gFail).sum
    ∧ (pass1 output_doc r b old_doc initState).1.transferred_count
        = (((pass1 output_doc r b old_doc initState).2).map gExact).sum
    ∧ (pass1 output_doc r b old_doc initState).1.transferred_fuzzy_count
        = (((pass1 output_doc r b old_doc initState).2).map gFuzzy).sum
    ∧ (pass1 output_doc r b old_doc initState).1.unsupported_count
        = (((pass1 output_doc r b old_doc initState).2).map gUnsupported).sum := by
  unfold pass1
  refine ⟨?_, ?_, ?_, ?_, ?_⟩
  · have := runSteps_counter (fun st pa => processAnnot output_doc r b pa.1 st pa.2)
      (fun s => s.failed_count) gFail
      (fun st x => processAnnot_failed_count output_doc r b x.1 st x.2)
      (pageAnnots old_doc) initState
    simpa [initState] using this
  · have := runSteps_counter (fun st pa => processAnnot output_doc r b pa.1 st pa.2)
      (fun s => s.failed_annotations.length) gFail
      (fun st x => processAnnot_records_len output_doc r b x.1 st x.2)
      (pageAnnots old_doc) initState
    simpa [initState] using this
  · have := runSteps_counter (fun st pa => processAnnot output_doc r b pa.1 st pa.2)
      (fun s => s.transferred_count) gExact
      (fun st x => processAnnot_transferred_count output_doc r b x.1 st x.2)
      (pageAnnots old_doc) initState
    simpa [initState] using this
  · have := runSteps_counter (fun st pa => processAnnot output_doc r b pa.1 st pa.2)
      (fun s => s.transferred_fuzzy_count) gFuzzy
      (fun st x => processAnnot_fuzzy_count output_doc r b x.1 st x.2)
      (pageAnnots old_doc) initState
    simpa [initState] using this
  · have := runSteps_counter (fun st pa => processAnnot output_doc r b pa.1 st pa.2)
      (fun s => s.unsupported_count) gUnsupported
      (fun st x => processAnnot_unsupported_count output_doc r b x.1 st x.2)
      (pageAnnots old_doc) initState
    simpa [initState] using this

/-- Pass 2 adds its reply contributions to the two counters it touches
and leaves the failure data and the fuzzy counter alone. -/
theorem pass2_counter_eqs (old_doc : OldDoc) (st : SessionState) :
    (pass2 old_doc st).1.transferred_count
        = st.transferred_count + (((pass2 old_doc st).2).map gReplyOk).sum
    ∧ (pass2 old_doc st).1.unsupported_count
        = st.unsupported_count + (((pass2 old_doc st).2).map gReplyUnsupported).sum
    ∧ (pass2 old_doc st).1.transferred_fuzzy_count = st.transferred_fuzzy_count
    ∧ (pass2 old_doc st).1.failed_count = st.failed_count
    ∧ (pass2 old_doc st).1.failed_annotations = st.failed_annotations := by
  unfold pass2
  exact ⟨runSteps_counter processReply (fun s => s.transferred_count) gReplyOk
      processReply_transferred_count (allAnnots old_doc) st,
    runSteps_counter processReply (fun s => s.unsupported_count) gReplyUnsupported
      processReply_unsupported_count (allAnnots old_doc) st,
    runSteps_proj_const processReply (fun s => s.transferred_fuzzy_count)
      processReply_fuzzy_const (allAnnots old_doc) st,
    runSteps_proj_const processReply (fun s => s.failed_count)
      processReply_failed_const (allAnnots old_doc) st,
    runSteps_proj_const processReply (fun s => s.failed_annotations)
      processReply_records_const (allAnnots old_doc) st⟩

/-- The pass-1 trace is a pointwise function of the source annotations. -/
theorem pass1_outcomes_eq (output_doc : Doc) (r : ℚ) (b : Int) (old_doc : OldDoc) :
    (pass1 output_doc r b old_doc initState).2
      = (pageAnnots old_doc).map
          (fun pa => (processAnnot output_doc r b pa.1 initState pa.2).2) := by
  unfold pass1
  exact runSteps_outcomes_pure _
    (fun st st' x => processAnnot_outcome_const output_doc r b x.1 st st' x.2)
    (pageAnnots old_doc) initState

/-- The accepted result is monotone in the budget parameters: whatever
is returned under `(r, b)` is still returned under any larger
`(r', b')`. -/
theorem find_best_fuzzy_mono (doc : Doc) (t : List Char) (idxs : List Nat)
    {r r' : ℚ} {b b' : Int} (hr : r ≤ r') (hb : b ≤ b')
    (x : Nat × List Quad)
    (h : find_best_fuzzy_match_in_pages doc t r b idxs = some x) :
    find_best_fuzzy_match_in_pages doc t r' b' idxs = some x := by
  obtain ⟨p, qs⟩ := x
  by_cases hn : (splitWs t).length = 0
  · rw [find_best_fuzzy_zero_words doc t r b idxs hn] at h
    exact Option.noConfusion h
  · obtain ⟨d, hfold, hle⟩ := (find_best_fuzzy_some_iff doc t r b idxs p qs hn).mp h
    exact (find_best_fuzzy_some_iff doc t r' b' idxs p qs hn).mpr
      ⟨d, hfold, le_trans hle (allowed_distance_mono t hr hb)⟩

/-- The type dispatch yields an annotation for every markup type. -/
theorem mkNewAnnot_ne_none (t : AnnotType) (np : Nat) (qs : List Quad)
    (h : t ∈ markup_types) : mkNewAnnot t np qs ≠ Option.none := by
  intro hc
  cases t <;> simp_all [markup_types, mkNewAnnot]

/-! ## Claims -/

/-- C1: for every document, non-empty normalized phrase, and anchor
page index, `find_text_occurrence` tries the four tiers in the fixed
order local-exact, global-exact, local-fuzzy, global-fuzzy and returns
the first tier's result (short-circuiting); if the phrase occurs
verbatim on some page of the clamped local window the result kind is
`exact` and the fuzzy configuration is never consulted; if all four
tiers fail the kind is `none`. -/
theorem C1_tiered_search :
    ∀ (doc : Doc) (t : List Char) (r : ℚ) (b : Int) (p : Nat),
      normalizeWs t ≠ [] →
      (find_text_occurrence doc t r b p = composeTiers (tiersInOrder doc (normalizeWs t) r b p))
      ∧ (∀ i ∈ local_page_indices doc p,
          (doc.load_page i).search_for (normalizeWs t) ≠ [] →
          (find_text_occurrence doc t r b p).2 = MatchType.exact
          ∧ ∀ (r' : ℚ) (b' : Int),
              find_text_occurrence doc t r' b' p = find_text_occurrence doc t r b p)
      ∧ ((∀ o ∈ tiersInOrder doc (normalizeWs t) r b p, o = Option.none) →
          find_text_occurrence doc t r b p = (Option.none, MatchType.none)) := by
  intro doc t r b p h
  refine ⟨find_text_occurrence_eq_composeTiers doc t r b p h, ?_, ?_⟩
  · intro i hi hne
    obtain ⟨pq, hall⟩ := find_text_occurrence_local_exact doc t p i h hi hne
    refine ⟨by rw [hall r b], fun r' b' => by rw [hall r' b', hall r b]⟩
  · intro hall
    rw [find_text_occurrence_eq_composeTiers doc t r b p h]
    unfold composeTiers
    have hnone : (tiersInOrder doc (normalizeWs t) r b p).findSome? id = Option.none := by
      rw [List.findSome?_eq_none]
      intro o ho
      exact hall o ho
    rw [hnone]

/-- C1 witness: on a one-page document whose only exact hit is `hello`,
the locator returns an exact match and is unchanged under a different
fuzzy configuration. -/
theorem C1_tiered_search_witness :
    (find_text_occurrence docExact "hello".toList ratio30 5 0).2 = MatchType.exact
    ∧ find_text_occurrence docExact "hello".toList ratioNeg 0 0
        = find_text_occurrence docExact "hello".toList ratio30 5 0 := by
  have h := C1_tiered_search docExact "hello".toList ratio30 5 0 (by decide)
  have h2 := h.2.1 0 (by decide) (by decide)
  exact ⟨h2.1, h2.2 ratioNeg 0⟩

/-- C2: the transfer decision gates on the absolute page distance: a
distance of exactly `MAX_PAGE_DISTANCE` passes the general gate (and,
with this repository's constants, is accepted for both kinds), a
distance of `MAX_PAGE_DISTANCE + 1` is rejected regardless of kind;
whenever the stricter fuzzy limit is below the general one, a fuzzy
match in between is rejected while an exact match at the same distance
is accepted; and the pass-1 body rejects a located match exactly when
the composed gate fails. -/
theorem C2_page_distance_gates :
    (distance_gate MAX_PAGE_DISTANCE MAX_PAGE_DISTANCE = true
      ∧ distance_gate MAX_PAGE_DISTANCE (MAX_PAGE_DISTANCE + 1) = false
      ∧ transfer_accepts MAX_PAGE_DISTANCE FUZZY_MAX_PAGE_DISTANCE MatchType.exact
          MAX_PAGE_DISTANCE = true
      ∧ transfer_accepts MAX_PAGE_DISTANCE FUZZY_MAX_PAGE_DISTANCE MatchType.fuzzy
          MAX_PAGE_DISTANCE = true
      ∧ (∀ k : MatchType, transfer_accepts MAX_PAGE_DISTANCE FUZZY_MAX_PAGE_DISTANCE k
          (MAX_PAGE_DISTANCE + 1) = false))
    ∧ (∀ m f d : Nat, f < d → d ≤ m →
        transfer_accepts m f MatchType.fuzzy d = false
        ∧ transfer_accepts m f MatchType.exact d = true)
    ∧ (∀ (output_doc : Doc) (r : ℚ) (b : Int) (p : Nat) (st : SessionState) (a : SrcAnnot)
        (np : Nat) (qs : List Quad) (mt : MatchType),
        a.atype ∈ markup_types →
        normalizeWs a.extractedText ≠ [] →
        find_text_occurrence output_doc (normalizeWs a.extractedText) r b p
          = (some (np, qs), mt) →
        mt ≠ MatchType.none →
        (((processAnnot output_doc r b p st a).2 = Pass1Outcome.tooFar
            ∨ (processAnnot output_doc r b p st a).2 = Pass1Outcome.tooFarFuzzy)
          ↔ transfer_accepts MAX_PAGE_DISTANCE FUZZY_MAX_PAGE_DISTANCE mt
              (((np : Int) - (p : Int)).natAbs) = false)) := by
  refine ⟨⟨by decide, by decide, by decide, by decide, fun k => by cases k <;> decide⟩, ?_, ?_⟩
  · intro m f d h1 h2
    constructor
    · simp only [transfer_accepts, distance_gate, fuzzy_distance_gate, Bool.and_eq_false_iff]
      right
      simp
      omega
    · simp only [transfer_accepts, distance_gate, fuzzy_distance_gate, Bool.and_eq_true]
      constructor
      · simp
        omega
      · simp
  · intro output_doc r b p st a np qs mt hmem htext hloc hmt
    rcases processAnnot_spec output_doc r b p st a with
      ⟨h1, hres⟩ | ⟨h1, h2, hres⟩ |
      ⟨h1, h2, pg, mt₀, hloc0,
        ⟨hdeg, hres⟩ |
        ⟨np₀, qs₀, hpg, hmt0,
          ⟨hd, hres⟩ | ⟨hd1, hmf, hd2, hres⟩ |
          ⟨hd1, hnf, ⟨hmk, hres⟩ | ⟨hmt2, v, hres⟩ | ⟨hmt2, v, hres⟩⟩⟩⟩
    · exact absurd hmem h1
    · exact absurd h2 htext
    · have hpm := hloc.symm.trans hloc0
      simp only [Prod.mk.injEq] at hpm
      rcases hdeg with hdeg | hdeg
      · rw [← hpm.2] at hdeg
        exact absurd hdeg hmt
      · rw [← hpm.1] at hdeg
        exact Option.noConfusion hdeg
    all_goals {
      have hpm := hloc.symm.trans hloc0
      simp only [Prod.mk.injEq] at hpm
      have hpg' := hpm.1.trans hpg
      simp only [Option.some.injEq, Prod.mk.injEq] at hpg'
      first
      | ( -- rejection by the general gate
        rw [hres]
        rw [← hpg'.1] at hd
        have hacc : transfer_accepts MAX_PAGE_DISTANCE FUZZY_MAX_PAGE_DISTANCE mt
            (((np : Int) - (p : Int)).natAbs) = false := by
          simp only [transfer_accepts, distance_gate, fuzzy_distance_gate,
            Bool.and_eq_false_iff]
          left
          simp
          omega
        simp [hacc])
      | ( -- rejection by the stricter fuzzy gate
        rw [hres]
        rw [← hpg'.1] at hd2
        have hmtf : mt = MatchType.fuzzy := hpm.2.trans hmf
        have hacc : transfer_accepts MAX_PAGE_DISTANCE FUZZY_MAX_PAGE_DISTANCE mt
            (((np : Int) - (p : Int)).natAbs) = false := by
          simp only [transfer_accepts, distance_gate, fuzzy_distance_gate,
            Bool.and_eq_false_iff]
          right
          simp [hmtf]
          omega
        simp [hacc])
      | ( -- the dispatch cannot fail for a markup type
        exact absurd hmk (mkNewAnnot_ne_none a.atype np₀ qs₀ hmem))
      | ( -- acceptance
        rw [hres]
        rw [← hpg'.1] at hd1
        rw [← hpg'.1, ← hpm.2] at hnf
        have hacc : transfer_accepts MAX_PAGE_DISTANCE FUZZY_MAX_PAGE_DISTANCE mt
            (((np : Int) - (p : Int)).natAbs) = true := by
          simp only [transfer_accepts, distance_gate, fuzzy_distance_gate,
            Bool.and_eq_true]
          constructor
          · simp
            omega
          · simp
            rcases not_and_or.mp hnf with hno | hno
            · exact Or.inl hno
            · exact Or.inr (not_lt.mp hno)
        simp [hacc])
    }

/-- C2 witness: the parametric fuzzy gate at `(max, maxFuzzy, d) =
(5, 2, 3)`, and a concrete run in which the global-exact tier finds the
phrase six pages away and the pass-1 body rejects it. -/
theorem C2_page_distance_gates_witness :
    transfer_accepts 5 2 MatchType.fuzzy 3 = false
    ∧ transfer_accepts 5 2 MatchType.exact 3 = true
    ∧ ((processAnnot docFar ratio30 5 0 initState aHl).2 = Pass1Outcome.tooFar
        ∨ (processAnnot docFar ratio30 5 0 initState aHl).2 = Pass1Outcome.tooFarFuzzy) := by
  have h := C2_page_distance_gates
  refine ⟨(h.2.1 5 2 3 (by decide) (by decide)).1, (h.2.1 5 2 3 (by decide) (by decide)).2, ?_⟩
  have h3 := h.2.2 docFar ratio30 5 0 initState aHl 6 [q0] MatchType.exact
    (by decide) (by decide) (by decide) (by decide)
  exact h3.mpr (by decide)

/-- A pass-1 branch contributes to the unsupported counter exactly when
the annotation's type is outside the markup set. -/
theorem gUnsupported_eq_indicator (output_doc : Doc) (r : ℚ) (b : Int)
    (st : SessionState) (pa : Nat × SrcAnnot) :
    gUnsupported ((processAnnot output_doc r b pa.1 st pa.2).2)
      = if !(decide (pa.2.atype ∈ markup_types)) then 1 else 0 := by
  have hiff := processAnnot_unsupported_iff output_doc r b pa.1 st pa.2
  unfold gUnsupported
  by_cases hm : pa.2.atype ∈ markup_types
  · have hne : ¬(processAnnot output_doc r b pa.1 st pa.2).2 = Pass1Outcome.unsupportedType := by
      rw [hiff]
      simpa using hm
    simp [hm, hne]
  · have heq : (processAnnot output_doc r b pa.1 st pa.2).2 = Pass1Outcome.unsupportedType :=
      hiff.mpr hm
    simp [hm, heq]

/-- A pass-2 branch contributes to the unsupported counter exactly for
a sticky note whose in-reply-to xref is not in the map. -/
theorem gReplyUnsupported_eq_indicator (m : List (Nat × NewAnnot)) (a : SrcAnnot) :
    gReplyUnsupported (replyDecision m a)
      = if decide (a.atype = AnnotType.text) && (mapLookup m a.irt_xref).isNone then 1 else 0 := by
  unfold replyDecision gReplyUnsupported
  by_cases ht : a.atype = AnnotType.text
  · cases hl : mapLookup m a.irt_xref <;> simp [ht, hl]
  · simp [ht]

/-- C3 counterexample: in a run where the reply's parent highlight is
transferred (the pass-2 trace re-attaches the reply), the unsupported
counter still ends at 1, because pass 1 counts every sticky note as an
unsupported type before pass 2 re-attaches it; the claim predicts 0 for
this input. -/
theorem C3_counterexample :
    aReply.atype = AnnotType.text
    ∧ (transfer_annotations docExact oldDoc3 ratio30 5).2.2
        = [Pass2Outcome.skipped, Pass2Outcome.replyOk]
    ∧ (transfer_annotations docExact oldDoc3 ratio30 5).1.unsupported_count = 1 := by
  exact ⟨by decide, by decide, by decide⟩

/-- C3 amended: the unsupported counter ends at the number of pass-1
annotations whose type is outside {highlight, underline, squiggly}
(which includes every reply) plus the number of sticky notes whose
in-reply-to xref is missing from the completed pass-1 map; a reply
whose parent was transferred is therefore counted exactly once, in
pass 1. -/
theorem C3_unsupported_counting :
    ∀ (output_doc : Doc) (old_doc : OldDoc) (r : ℚ) (b : Int),
      (transfer_annotations output_doc old_doc r b).1.unsupported_count
        = (pageAnnots old_doc).countP (fun pa => !(decide (pa.2.atype ∈ markup_types)))
          + (allAnnots old_doc).countP
              (fun a => decide (a.atype = AnnotType.text)
                && (mapLookup (pass1 output_doc r b old_doc initState).1.new_annot_map
                      a.irt_xref).isNone) := by
  intro output_doc old_doc r b
  obtain ⟨hdec, -, -⟩ := session_decomp output_doc old_doc r b
  rw [hdec]
  rw [(pass2_counter_eqs old_doc (pass1 output_doc r b old_doc initState).1).2.1]
  rw [(pass1_counter_eqs output_doc r b old_doc).2.2.2.2]
  congr 1
  · rw [pass1_outcomes_eq, List.map_map]
    have hfun : (gUnsupported ∘ fun pa : Nat × SrcAnnot =>
          (processAnnot output_doc r b pa.1 initState pa.2).2)
        = fun pa : Nat × SrcAnnot =>
            if !(decide (pa.2.atype ∈ markup_types)) then 1 else 0 :=
      funext fun pa => gUnsupported_eq_indicator output_doc r b initState pa
    rw [hfun, sum_map_bool_indicator]
  · show ((runSteps processReply (pass1 output_doc r b old_doc initState).1
        (allAnnots old_doc)).2.map gReplyUnsupported).sum = _
    rw [pass2_outcomes, List.map_map]
    have hfun : (gReplyUnsupported ∘
          replyDecision (pass1 output_doc r b old_doc initState).1.new_annot_map)
        = fun a : SrcAnnot =>
            if decide (a.atype = AnnotType.text)
                && (mapLookup (pass1 output_doc r b old_doc initState).1.new_annot_map
                      a.irt_xref).isNone then 1 else 0 :=
      funext fun a =>
        gReplyUnsupported_eq_indicator (pass1 output_doc r b old_doc initState).1.new_annot_map a
    rw [hfun, sum_map_bool_indicator]

/-- C3 witness: on the concrete run, one pass-1 unsupported type (the
reply) and no orphaned reply. -/
theorem C3_unsupported_counting_witness :
    (transfer_annotations docExact oldDoc3 ratio30 5).1.unsupported_count
      = (pageAnnots oldDoc3).countP (fun pa => !(decide (pa.2.atype ∈ markup_types)))
        + (allAnnots oldDoc3).countP
            (fun a => decide (a.atype = AnnotType.text)
              && (mapLookup (pass1 docExact ratio30 5 oldDoc3 initState).1.new_annot_map
                    a.irt_xref).isNone) :=
  C3_unsupported_counting docExact oldDoc3 ratio30 5

/-- C4 counterexample: with phrase `ab` (length 2), threshold ratio
`-1/4` and base allowance 1, the matcher accepts the best window `ac`
at edit distance 1 — but `floor(2 * (-1/4)) + 1 = 0 < 1`, so under the
claim's floor-based budget it would have to return none: Python's
`int()` truncates toward zero instead of flooring. -/
theorem C4_counterexample :
    find_best_fuzzy_match_in_pages docC4 "ab".toList ratioNeg 1 [0]
        = some (0, [(Rect.mk 0 0 1 1).quad])
    ∧ (fuzzyCandidates docC4 "ab".toList (splitWs "ab".toList).length [0]).foldl
        updateBest Option.none = some (0, [(Rect.mk 0 0 1 1).quad], 1)
    ∧ ⌊(("ab".toList.length : ℚ)) * ratioNeg⌋ + 1 = (0 : Int)
    ∧ ¬ ((1 : Int) ≤ 0) := by
  refine ⟨by decide, by decide, ?_, by decide⟩
  have hlen : "ab".toList.length = 2 := by decide
  rw [hlen]
  unfold ratioNeg
  rw [Rat.mkRat_eq_div]
  push_cast
  norm_num

/-- C4 amended: the allowed edit distance is the toward-zero truncation
of `len(targetPhrase) * thresholdRatio` plus the base allowance (equal
to the floor for nonnegative ratios); the matcher returns none on a
zero-word phrase, returns the best window's page with one quadrilateral
per matched word exactly when that window's Levenshtein distance is
within the budget, and returns none otherwise. -/
theorem C4_fuzzy_budget :
    ∀ (doc : Doc) (t : List Char) (r : ℚ) (b : Int) (idxs : List Nat),
      allowed_distance t r b = pyTrunc ((t.length : ℚ) * r) + b
      ∧ (0 ≤ r → allowed_distance t r b = ⌊(t.length : ℚ) * r⌋ + b)
      ∧ ((splitWs t).length = 0 →
          find_best_fuzzy_match_in_pages doc t r b idxs = Option.none)
      ∧ ((splitWs t).length ≠ 0 →
          ∀ (p : Nat) (qs : List Quad),
            find_best_fuzzy_match_in_pages doc t r b idxs = some (p, qs)
              ↔ ∃ d, (fuzzyCandidates doc t (splitWs t).length idxs).foldl updateBest
                    Option.none = some (p, qs, d)
                  ∧ (d : Int) ≤ allowed_distance t r b)
      ∧ (∀ (p : Nat) (qs : List Quad),
          find_best_fuzzy_match_in_pages doc t r b idxs = some (p, qs) →
          qs.length = (splitWs t).length) := by
  intro doc t r b idxs
  refine ⟨allowed_distance_eq_pyTrunc t r b, ?_,
    find_best_fuzzy_zero_words doc t r b idxs,
    fun hn p qs => find_best_fuzzy_some_iff doc t r b idxs p qs hn,
    fun p qs h => find_best_fuzzy_quads_len doc t r b idxs p qs h⟩
  intro hr
  rw [allowed_distance_eq_pyTrunc t r b,
    pyTrunc_eq_floor _ (mul_nonneg (by positivity) hr)]

/-- C4 witness: the default ratio `0.3` is nonnegative, so the budget
is the floor formula; the empty phrase yields none; and on the concrete
document the acceptance is exactly the budget test on the best window. -/
theorem C4_fuzzy_budget_witness :
    allowed_distance "hello wrld".toList ratio30 5
        = ⌊(("hello wrld".toList.length : ℚ)) * ratio30⌋ + 5
    ∧ find_best_fuzzy_match_in_pages docFuzzy [] ratio30 5 [0] = Option.none
    ∧ (find_best_fuzzy_match_in_pages docFuzzy "hello wrld".toList ratio30 5 [0]
          = some (0, [wHello.rect.quad, wWorld.rect.quad])
        ↔ ∃ d, (fuzzyCandidates docFuzzy "hello wrld".toList
              (splitWs "hello wrld".toList).length [0]).foldl updateBest Option.none
            = some (0, [wHello.rect.quad, wWorld.rect.quad], d)
          ∧ (d : Int) ≤ allowed_distance "hello wrld".toList ratio30 5) := by
  refine ⟨(C4_fuzzy_budget docFuzzy "hello wrld".toList ratio30 5 [0]).2.1 (by decide),
    (C4_fuzzy_budget docFuzzy [] ratio30 5 [0]).2.2.1 (by decide),
    (C4_fuzzy_budget docFuzzy "hello wrld".toList ratio30 5 [0]).2.2.2.1 (by decide) 0
      [wHello.rect.quad, wWorld.rect.quad]⟩

/-- C5: the matcher tracks the single minimum-distance window across
the whole ordered candidate stream (pages in caller-supplied order,
then window positions), ties kept by the first found: an equal-distance
later window never replaces the incumbent, the selected window is the
first one attaining the minimum, and the matcher's returned page and
quads are exactly that fold's result. -/
theorem C5_first_minimum :
    ∀ (doc : Doc) (t : List Char) (r : ℚ) (b : Int) (idxs : List Nat),
      (∀ best c : Cand, ¬ c.dist < best.dist → updateBest (some best) c = some best)
      ∧ (∀ c : Cand,
          (fuzzyCandidates doc t (splitWs t).length idxs).foldl updateBest Option.none
              = some c →
          ∃ i, (fuzzyCandidates doc t (splitWs t).length idxs)[i]? = some c
            ∧ (∀ x ∈ fuzzyCandidates doc t (splitWs t).length idxs, c.dist ≤ x.dist)
            ∧ ∀ x ∈ (fuzzyCandidates doc t (splitWs t).length idxs).take i, c.dist < x.dist)
      ∧ (∀ (p : Nat) (qs : List Quad),
          find_best_fuzzy_match_in_pages doc t r b idxs = some (p, qs) →
          ∃ d, (fuzzyCandidates doc t (splitWs t).length idxs).foldl updateBest Option.none
            = some (p, qs, d)) := by
  intro doc t r b idxs
  refine ⟨updateBest_eq_of_not_lt, fun c => foldBest_first_argmin _ c, ?_⟩
  intro p qs h
  by_cases hn : (splitWs t).length = 0
  · rw [find_best_fuzzy_zero_words doc t r b idxs hn] at h
    exact Option.noConfusion h
  · obtain ⟨d, hfold, -⟩ := (find_best_fuzzy_some_iff doc t r b idxs p qs hn).mp h
    exact ⟨d, hfold⟩

/-- C5 witness: on the concrete two-word page, an equal-distance later
candidate does not replace the incumbent, and the returned window is the
first minimum of the stream. -/
theorem C5_first_minimum_witness :
    updateBest (some (0, [q0], 1)) (1, [q0], 1) = some (0, [q0], 1)
    ∧ ∃ i, (fuzzyCandidates docFuzzy "hello wrld".toList
          (splitWs "hello wrld".toList).length [0])[i]?
        = some (0, [wHello.rect.quad, wWorld.rect.quad], 1)
      ∧ (∀ x ∈ fuzzyCandidates docFuzzy "hello wrld".toList
            (splitWs "hello wrld".toList).length [0],
          Cand.dist (0, [wHello.rect.quad, wWorld.rect.quad], 1) ≤ x.dist)
      ∧ ∀ x ∈ (fuzzyCandidates docFuzzy "hello wrld".toList
            (splitWs "hello wrld".toList).length [0]).take i,
          Cand.dist (0, [wHello.rect.quad, wWorld.rect.quad], 1) < x.dist := by
  have h := C5_first_minimum docFuzzy "hello wrld".toList ratio30 5 [0]
  exact ⟨h.1 (0, [q0], 1) (1, [q0], 1) (by decide),
    h.2.1 (0, [wHello.rect.quad, wWorld.rect.quad], 1) (by decide)⟩

/-- C6: the fuzzy acceptance is monotone in the budget parameters: a
match returned under `(thresholdRatio, baseAllowance)` is still returned
(unchanged) under any pointwise larger parameters. -/
theorem C6_budget_monotone :
    ∀ (doc : Doc) (t : List Char) (idxs : List Nat) (r r' : ℚ) (b b' : Int)
      (x : Nat × List Quad),
      r ≤ r' → b ≤ b' →
      find_best_fuzzy_match_in_pages doc t r b idxs = some x →
      find_best_fuzzy_match_in_pages doc t r' b' idxs = some x :=
  fun doc t idxs _ _ _ _ x hr hb h => find_best_fuzzy_mono doc t idxs hr hb x h

/-- C6 witness: the match accepted at ratio `0.3`, allowance 5 is still
accepted at ratio 1, allowance 6. -/
theorem C6_budget_monotone_witness :
    find_best_fuzzy_match_in_pages docFuzzy "hello wrld".toList 1 6 [0]
      = some (0, [wHello.rect.quad, wWorld.rect.quad]) :=
  C6_budget_monotone docFuzzy "hello wrld".toList [0] ratio30 1 5 6
    (0, [wHello.rect.quad, wWorld.rect.quad]) (by decide) (by decide) (by decide)

/-- C7 counterexample: `hello wrld` is verbatim-absent from the whole
document (every page's exact search returns nothing, and the only page's
words read `hello world`), yet the locator returns a fuzzy match, not
`none` — an absent phrase does not imply the `"none"` kind. -/
theorem C7_counterexample :
    (∀ i ∈ all_page_indices docFuzzy,
      (docFuzzy.load_page i).search_for "hello wrld".toList = [])
    ∧ (find_text_occurrence docFuzzy "hello wrld".toList ratio30 5 0).2 = MatchType.fuzzy := by
  exact ⟨by decide, by decide⟩

/-- C7 amended: for a phrase that is verbatim-absent from every page
AND beyond the fuzzy budget on both candidate pools, the locator
returns the `"none"` kind, and the pass-1 body then records the
annotation as one failure carrying its normalized text (the
could-not-find-text branch). -/
theorem C7_not_found :
    (∀ (doc : Doc) (t : List Char) (r : ℚ) (b : Int) (p : Nat),
      normalizeWs t ≠ [] →
      (∀ i ∈ all_page_indices doc, (doc.load_page i).search_for (normalizeWs t) = []) →
      find_best_fuzzy_match_in_pages doc (normalizeWs t) r b (local_page_indices doc p)
          = Option.none →
      find_best_fuzzy_match_in_pages doc (normalizeWs t) r b (all_page_indices doc)
          = Option.none →
      find_text_occurrence doc t r b p = (Option.none, MatchType.none))
    ∧ (∀ (output_doc : Doc) (r : ℚ) (b : Int) (p : Nat) (st : SessionState) (a : SrcAnnot),
        a.atype ∈ markup_types →
        normalizeWs a.extractedText ≠ [] →
        find_text_occurrence output_doc (normalizeWs a.extractedText) r b p
          = (Option.none, MatchType.none) →
        processAnnot output_doc r b p st a
          = (failSt st p (normalizeWs a.extractedText), Pass1Outcome.notFound)) := by
  constructor
  · intro doc t r b p h hex hf3 hf4
    exact find_text_occurrence_all_fail doc t r b p h hex hf3 hf4
  · intro output_doc r b p st a hmem htext hnone
    rcases processAnnot_spec output_doc r b p st a with
      ⟨h1, hres⟩ | ⟨h1, h2, hres⟩ |
      ⟨h1, h2, pg, mt₀, hloc0,
        ⟨hdeg, hres⟩ |
        ⟨np₀, qs₀, hpg, hmt0, -⟩⟩
    · exact absurd hmem h1
    · exact absurd h2 htext
    · exact hres
    · have hpm := hnone.symm.trans hloc0
      simp only [Prod.mk.injEq] at hpm
      rw [← hpm.1] at hpg
      exact Option.noConfusion hpg

/-- C7 witness: a twelve-letter phrase with no exact hit and edit
distance 12 against a budget of 8 fails all four tiers and is recorded
as a not-found failure. -/
theorem C7_not_found_witness :
    find_text_occurrence docFuzzy "qqqqqqqqqqqq".toList ratio30 5 0
        = (Option.none, MatchType.none)
    ∧ processAnnot docFuzzy ratio30 5 0 initState aQ
        = (failSt initState 0 "qqqqqqqqqqqq".toList, Pass1Outcome.notFound) := by
  have h := C7_not_found
  refine ⟨h.1 docFuzzy "qqqqqqqqqqqq".toList ratio30 5 0 (by decide) (by decide)
      (by decide) (by decide), ?_⟩
  have h2 := h.2 docFuzzy ratio30 5 0 initState aQ (by decide) (by decide) (by decide)
  exact h2

/-- C8: per-annotation errors never abort the run: every annotation of
both passes yields exactly one recorded branch (no early termination),
each of the recoverable failure branches (empty text, not found,
rejected by a distance gate) bumps the failure counter by exactly one
and appends exactly one record, every other branch leaves both alone,
and at the end of the session the failure counter equals the failure
list's length. -/
theorem C8_failures_recovered :
    ∀ (output_doc : Doc) (old_doc : OldDoc) (r : ℚ) (b : Int),
      (transfer_annotations output_doc old_doc r b).1.failed_count
        = (transfer_annotations output_doc old_doc r b).1.failed_annotations.length
      ∧ (transfer_annotations output_doc old_doc r b).2.1.length = (pageAnnots old_doc).length
      ∧ (transfer_annotations output_doc old_doc r b).2.2.length = (allAnnots old_doc).length
      ∧ (∀ (p : Nat) (st : SessionState) (a : SrcAnnot),
          isFailureOutcome (processAnnot output_doc r b p st a).2 = true →
          (processAnnot output_doc r b p st a).1.failed_count = st.failed_count + 1
          ∧ ∃ rec, (processAnnot output_doc r b p st a).1.failed_annotations
              = st.failed_annotations ++ [rec])
      ∧ (∀ (p : Nat) (st : SessionState) (a : SrcAnnot),
          isFailureOutcome (processAnnot output_doc r b p st a).2 = false →
          (processAnnot output_doc r b p st a).1.failed_count = st.failed_count
          ∧ (processAnnot output_doc r b p st a).1.failed_annotations
              = st.failed_annotations) := by
  intro output_doc old_doc r b
  obtain ⟨hdec, hdec1, hdec2⟩ := session_decomp output_doc old_doc r b
  refine ⟨?_, ?_, ?_, ?_, ?_⟩
  · rw [hdec]
    rw [(pass2_counter_eqs old_doc (pass1 output_doc r b old_doc initState).1).2.2.2.1,
      (pass2_counter_eqs old_doc (pass1 output_doc r b old_doc initState).1).2.2.2.2]
    rw [(pass1_counter_eqs output_doc r b old_doc).1,
      (pass1_counter_eqs output_doc r b old_doc).2.1]
  · rw [hdec1]
    unfold pass1
    exact runSteps_length _ _ initState
  · rw [hdec2]
    unfold pass2
    exact runSteps_length _ _ _
  · intro p st a hf
    refine ⟨?_, ?_⟩
    · rw [processAnnot_failed_count output_doc r b p st a]
      simp [gFail, hf]
    · obtain ⟨recs, happ, hlen⟩ := processAnnot_records_append output_doc r b p st a
      rw [show gFail (processAnnot output_doc r b p st a).2 = 1 by simp [gFail, hf]] at hlen
      obtain ⟨rec, hrec⟩ := List.length_eq_one.mp hlen
      exact ⟨rec, by rw [happ, hrec]⟩
  · intro p st a hf
    refine ⟨?_, ?_⟩
    · rw [processAnnot_failed_count output_doc r b p st a]
      simp [gFail, hf]
    · obtain ⟨recs, happ, hlen⟩ := processAnnot_records_append output_doc r b p st a
      rw [show gFail (processAnnot output_doc r b p st a).2 = 0 by simp [gFail, hf]] at hlen
      rw [List.length_eq_zero] at hlen
      rw [happ, hlen, List.append_nil]

/-- C8 witness: the not-found annotation `xyz` bumps the counter and
appends one record; the unsupported-type reply changes neither. -/
theorem C8_failures_recovered_witness :
    ((processAnnot docExact ratio30 5 0 initState aXyz).1.failed_count
        = initState.failed_count + 1
      ∧ ∃ rec, (processAnnot docExact ratio30 5 0 initState aXyz).1.failed_annotations
          = initState.failed_annotations ++ [rec])
    ∧ (processAnnot docExact ratio30 5 0 initState aReply).1.failed_count
        = initState.failed_count := by
  have h := C8_failures_recovered docExact oldDoc3 ratio30 5
  exact ⟨h.2.2.2.1 0 initState aXyz (by decide),
    (h.2.2.2.2 0 initState aReply (by decide)).1⟩

/-- C9: every markup annotation transferred successfully in pass 1 ends
the session with exactly one map entry keyed by its xref; pass-1
non-success branches and every pass-2 step leave the map untouched; and
pass 2 resolves every reply against the completed pass-1 map (its trace
is a pointwise function of that one map), so no reply can miss its
parent through processing order. -/
theorem C9_transfer_map :
    ∀ (output_doc : Doc) (old_doc : OldDoc) (r : ℚ) (b : Int),
      (∀ (i : Nat) (pa : Nat × SrcAnnot) (o : Pass1Outcome),
        (pageAnnots old_doc)[i]? = some pa →
        (transfer_annotations output_doc old_doc r b).2.1[i]? = some o →
        (o = Pass1Outcome.okExact ∨ o = Pass1Outcome.okFuzzy) →
        ((transfer_annotations output_doc old_doc r b).1.new_annot_map.map Prod.fst).count
            pa.2.xref = 1)
      ∧ (∀ (p : Nat) (st : SessionState) (a : SrcAnnot),
          ¬((processAnnot output_doc r b p st a).2 = Pass1Outcome.okExact
            ∨ (processAnnot output_doc r b p st a).2 = Pass1Outcome.okFuzzy) →
          (processAnnot output_doc r b p st a).1.new_annot_map = st.new_annot_map)
      ∧ (∀ (st : SessionState) (a : SrcAnnot),
          (processReply st a).1.new_annot_map = st.new_annot_map)
      ∧ (transfer_annotations output_doc old_doc r b).1.new_annot_map
          = (pass1 output_doc r b old_doc initState).1.new_annot_map
      ∧ (transfer_annotations output_doc old_doc r b).2.2
          = (allAnnots old_doc).map
              (replyDecision (pass1 output_doc r b old_doc initState).1.new_annot_map) := by
  intro output_doc old_doc r b
  obtain ⟨hdec, hdec1, hdec2⟩ := session_decomp output_doc old_doc r b
  have hmapfinal : (transfer_annotations output_doc old_doc r b).1.new_annot_map
      = (pass1 output_doc r b old_doc initState).1.new_annot_map := by
    rw [hdec]
    show (runSteps processReply _ _).1.new_annot_map = _
    exact pass2_map_const _ _
  refine ⟨?_, ?_, processReply_map_const, hmapfinal, ?_⟩
  · intro i pa o hpa ho hok
    rw [hmapfinal]
    have hmem : pa.2.xref
        ∈ ((pass1 output_doc r b old_doc initState).1.new_annot_map.map Prod.fst) := by
      rw [hdec1] at ho
      exact pass1_ok_key output_doc r b (pageAnnots old_doc) initState i pa o hpa ho hok
    have hnodup : (((pass1 output_doc r b old_doc initState).1.new_annot_map.map
        Prod.fst)).Nodup := by
      apply pass1_nodup_keys output_doc r b (pageAnnots old_doc) initState
      simp [initState]
    exact List.count_eq_one_of_mem hnodup hmem
  · intro p st a hnok
    rcases processAnnot_map_cases output_doc r b p st a with ⟨heq, -⟩ | ⟨v, -, hok⟩
    · exact heq
    · exact absurd hok hnok
  · rw [hdec2]
    show (runSteps processReply _ _).2 = _
    exact pass2_outcomes _ _

/-- C9 witness: the transferred highlight's xref 10 has exactly one
entry in the final map. -/
theorem C9_transfer_map_witness :
    ((transfer_annotations docExact oldDoc3 ratio30 5).1.new_annot_map.map Prod.fst).count
        aHl.xref = 1 := by
  have h := C9_transfer_map docExact oldDoc3 ratio30 5
  exact h.1 0 (0, aHl) Pass1Outcome.okExact (by decide) (by decide) (Or.inl rfl)

/-- C10: the final `transferred_count` is the number of pass-1 exact
transfers plus the number of pass-2 re-attached replies (one shared
counter), and the fuzzy counter is exactly the number of pass-1 fuzzy
transfers — no reply ever bumps it. -/
theorem C10_reply_counter :
    ∀ (output_doc : Doc) (old_doc : OldDoc) (r : ℚ) (b : Int),
      (transfer_annotations output_doc old_doc r b).1.transferred_count
        = (transfer_annotations output_doc old_doc r b).2.1.count Pass1Outcome.okExact
          + (transfer_annotations output_doc old_doc r b).2.2.count Pass2Outcome.replyOk
      ∧ (transfer_annotations output_doc old_doc r b).1.transferred_fuzzy_count
        = (transfer_annotations output_doc old_doc r b).2.1.count Pass1Outcome.okFuzzy := by
  intro output_doc old_doc r b
  obtain ⟨hdec, hdec1, hdec2⟩ := session_decomp output_doc old_doc r b
  have hsum1 : ∀ l : List Pass1Outcome, (l.map gExact).sum = l.count Pass1Outcome.okExact :=
    fun l => sum_map_ite_count Pass1Outcome.okExact l
  have hsum2 : ∀ l : List Pass2Outcome, (l.map gReplyOk).sum = l.count Pass2Outcome.replyOk :=
    fun l => sum_map_ite_count Pass2Outcome.replyOk l
  have hsum3 : ∀ l : List Pass1Outcome, (l.map gFuzzy).sum = l.count Pass1Outcome.okFuzzy :=
    fun l => sum_map_ite_count Pass1Outcome.okFuzzy l
  constructor
  · rw [hdec, hdec1, hdec2]
    rw [(pass2_counter_eqs old_doc (pass1 output_doc r b old_doc initState).1).1]
    rw [(pass1_counter_eqs output_doc r b old_doc).2.2.1]
    rw [hsum1, hsum2]
  · rw [hdec, hdec1]
    rw [(pass2_counter_eqs old_doc (pass1 output_doc r b old_doc initState).1).2.2.1]
    rw [(pass1_counter_eqs output_doc r b old_doc).2.2.2.1]
    rw [hsum3]

end PdfTransfer
